import Mathlib

set_option maxRecDepth 100000

namespace BIP380

/-! ## Definitions (embedded from the Rust sources) -/

/-- Embeds `ParsingError` (src/structs/parsing_error.rs): a single
human-readable message. -/
structure ParsingError where
  message : String
deriving DecidableEq, Repr

/-- Single-quote character, used when assembling error messages that quote
their argument. -/
def sq : String := String.mk [Char.ofNat 39]

instance instDecEqExcept {ε α : Type _} [DecidableEq ε] [DecidableEq α] :
    DecidableEq (Except ε α) := fun x y =>
  match x, y with
  | .error a, .error b =>
    if h : a = b then isTrue (congrArg Except.error h)
    else isFalse (fun hc => h (Except.error.inj hc))
  | .error _, .ok _ => isFalse (fun hc => Except.noConfusion hc)
  | .ok _, .error _ => isFalse (fun hc => Except.noConfusion hc)
  | .ok a, .ok b =>
    if h : a = b then isTrue (congrArg Except.ok h)
    else isFalse (fun hc => h (Except.ok.inj hc))

/-- `INPUT_CHARSET` from checksum.rs: the 95-character alphabet of valid
descriptor characters (note: it contains the double quote and the backslash,
written here with escapes). -/
def INPUT_CHARSET : List Char :=
  "0123456789()[],\x27/*abcdefgh@:$%\x7b\x7dIJKLMNOPQRSTUVWXYZ&+-.;<=>?!^_|~ijklmnopqrstuvwxyzABCDEFGH`#\"\\ ".toList

/-- `CHECKSUM_CHARSET` from checksum.rs: the 32-symbol checksum alphabet. -/
def CHECKSUM_CHARSET : List Char := "qpzry9x8gf2tvdw0s3jn54khce6mua7l".toList

/-- Embeds Rust's `str::find(char)` on an ASCII alphabet: index of the first
occurrence (byte index and character index agree on ASCII). -/
def charIndex (s : List Char) (c : Char) : Option Nat :=
  match s with
  | [] => none
  | x :: xs => if x == c then some 0 else (charIndex xs c).map (· + 1)

/-- One conditional generator term of the polymod loop:
`if ((top >> i) & 1) != 0 { gen } else { 0 }`. -/
def genTerm (top i g : Nat) : Nat := if (top >>> i) &&& 1 ≠ 0 then g else 0

/-- One iteration of the loop in `checksum_polymod`. -/
def pmStep (c v : Nat) : Nat :=
  let top := c >>> 35
  ((c &&& 0x7ffffffff) <<< 5) ^^^ v
    ^^^ genTerm top 0 0xf5dee51989 ^^^ genTerm top 1 0xa9fdca3312
    ^^^ genTerm top 2 0x1bab10e32d ^^^ genTerm top 3 0x3706b1677a
    ^^^ genTerm top 4 0x644d626ffd

/-- Embeds `checksum_polymod`: fold the BCH step over the symbols, starting
from 1. -/
def checksum_polymod (symbols : List Nat) : Nat := symbols.foldl pmStep 1

/-- One loop iteration of `checksum_expand`: push `index & 31`, accumulate
`index >> 5` into the group buffer, and flush the buffer as one combined
symbol every third character. -/
def expandStep (st : List Nat × List Nat) (index : Nat) : List Nat × List Nat :=
  if (st.2 ++ [index >>> 5]).length == 3 then
    (st.1 ++ [index &&& 31] ++
      [(st.2 ++ [index >>> 5]).getD 0 0 * 9 + (st.2 ++ [index >>> 5]).getD 1 0 * 3 +
        (st.2 ++ [index >>> 5]).getD 2 0], [])
  else
    (st.1 ++ [index &&& 31], st.2 ++ [index >>> 5])

/-- The post-loop flush of `checksum_expand`: a leftover group of size 1 or 2
emits one final symbol. -/
def expandTail (groups : List Nat) : List Nat :=
  match groups with
  | [g0] => [g0]
  | [g0, g1] => [g0 * 3 + g1]
  | _ => []

/-- The character-by-character alphabet lookup of `checksum_expand`: `none`
represents the Rust `panic!` raised at the first character outside
`INPUT_CHARSET`. -/
def charIndices (s : List Char) : Option (List Nat) :=
  match s with
  | [] => some []
  | c :: cs =>
    match charIndex INPUT_CHARSET c, charIndices cs with
    | some i, some is => some (i :: is)
    | _, _ => none

/-- Embeds `checksum_expand`. `none` represents the Rust `panic!` raised when
a character is outside `INPUT_CHARSET`. -/
def checksum_expand (script : List Char) : Option (List Nat) :=
  match charIndices script with
  | none => none
  | some idxs =>
    let st := idxs.foldl expandStep ([], [])
    some (st.1 ++ expandTail st.2)

/-- Embeds `checksum_length_check`: the checksum must have exactly 8
characters. -/
def checksum_length_check (checksum : List Char) : Bool := checksum.length == 8

/-- Embeds `checksum_check`. The `none` branch of the final conjunct is
unreachable: it is only evaluated after every script character has been
checked against `INPUT_CHARSET`. -/
def checksum_check (script checksum : List Char) : Bool :=
  checksum_length_check checksum
    && checksum.all (fun c => (charIndex CHECKSUM_CHARSET c).isSome)
    && script.all (fun c => (charIndex INPUT_CHARSET c).isSome)
    && (match checksum_expand script with
        | some syms =>
          checksum_polymod
            (syms ++ checksum.map (fun c => (charIndex CHECKSUM_CHARSET c).getD 0)) == 1
        | none => false)

/-- Embeds `checksum_create`. `none` represents the panic propagated out of
`checksum_expand`; the `unwrap_or_default` on the alphabet lookup is embedded
by `getD` (its default is never used because the extracted value is < 32). -/
def checksum_create (script : List Char) : Option (List Char) :=
  match checksum_expand script with
  | none => none
  | some syms =>
    let checksum := checksum_polymod (syms ++ List.replicate 8 0) ^^^ 1
    some ((List.range 8).map (fun i =>
      (CHECKSUM_CHARSET.get? ((checksum >>> (5 * (7 - i))) &&& 31)).getD (Char.ofNat 0)))

/-- Accumulate one 5-bit symbol into a big-endian value. -/
def encStep (a v : Nat) : Nat := (a <<< 5) ^^^ v

/-- The 40-bit value formed by eight 5-bit symbols, most significant first. -/
def vsEncode (vs : List Nat) : Nat := vs.foldl encStep 0

/-- The eight 5-bit groups `checksum_create` extracts from the folded value,
most significant first. -/
def createDigits (t : Nat) : List Nat :=
  (List.range 8).map (fun i => (t >>> (5 * (7 - i))) &&& 31)

/-- Invariant carried through the `checksum_expand` fold: all emitted symbols
are 5-bit values and all buffered groups are at most 2. -/
def expandInv (st : List Nat × List Nat) : Prop :=
  (∀ v ∈ st.1, v < 32) ∧ (∀ g ∈ st.2, g ≤ 2)

/-- The 93-character input alphabet exactly as the specification words it
(digits, the listed punctuation, backtick, hash, space, both letter cases).
Written only to state the specification's claim, to be compared with the
code's `INPUT_CHARSET`. -/
def specInputCharset93 : List Char :=
  "0123456789()[],\x27/*@:$%\x7b\x7d&+-.;<=>?!^_|~`# abcdefghijklmnopqrstuvwxyzABCDEFGHIJKLMNOPQRSTUVWXYZ".toList

/-- Embeds Rust's `char::is_ascii_hexdigit`: code point in `0-9`, `a-f` or
`A-F`. -/
def isAsciiHexdigitChar (c : Char) : Bool :=
  (48 ≤ c.toNat && c.toNat ≤ 57) || (97 ≤ c.toNat && c.toNat ≤ 102) ||
    (65 ≤ c.toNat && c.toNat ≤ 70)

/-- Value of one hex digit, as `char::to_digit(16)` computes it. -/
def hexDigitVal (c : Char) : Option Nat :=
  if '0' ≤ c ∧ c ≤ '9' then some (c.toNat - 48)
  else if 'a' ≤ c ∧ c ≤ 'f' then some (c.toNat - 87)
  else if 'A' ≤ c ∧ c ≤ 'F' then some (c.toNat - 55)
  else none

/-- Embeds Rust's `u8::from_str_radix(s, 16)`: an optional leading `+` or `-`
sign, then at least one base-16 digit; the value must fit in a `u8` (a
negative sign is only accepted on a zero value). -/
def from_str_radix_u8_16 (s : List Char) : Except Unit Nat :=
  match s with
  | [] => .error ()
  | c :: rest =>
    let signedDigits : Bool × List Char :=
      if c = '+' then (false, rest) else if c = '-' then (true, rest) else (false, s)
    if signedDigits.2 = [] then .error ()
    else
      match signedDigits.2.mapM hexDigitVal with
      | none => .error ()
      | some ds =>
        let v := ds.foldl (fun a d => a * 16 + d) 0
        if signedDigits.1 then (if v = 0 then .ok 0 else .error ())
        else if v < 256 then .ok v else .error ()

/-- Result of `decode_hex`: `panicked` represents the Rust panic raised by the
out-of-range byte slice `&s[i..i+2]`, kept distinct from the `ParseIntError`
return. -/
inductive DecodeHexResult where
  | panicked
  | parseError
  | ok (bytes : List Nat)
deriving DecidableEq, Repr

/-- The iteration of `decode_hex` over start indices `0, 2, 4, …`, expressed
on the remaining characters (characters stand for bytes: the embedding covers
ASCII inputs). A single remaining character means the final slice
`&s[i..i+2]` has `i + 2 > s.len()`: the out-of-bounds panic. -/
def decode_hex_go (rem : List Char) : DecodeHexResult :=
  match rem with
  | [] => .ok []
  | [_] => .panicked
  | a :: b :: rest =>
    match from_str_radix_u8_16 [a, b] with
    | .error () => .parseError
    | .ok v =>
      match decode_hex_go rest with
      | .panicked => .panicked
      | .parseError => .parseError
      | .ok bs => .ok (v :: bs)

/-- Embeds `decode_hex`: split into consecutive 2-character groups and parse
each as a base-16 byte. -/
def decode_hex (s : List Char) : DecodeHexResult := decode_hex_go s

/-- Embeds `assert_hexadecimal_format`: strip plain spaces, then require the
remainder to be non-empty, of even length, and all hex digits; the error
message quotes the unstripped input and the label. -/
def assert_hexadecimal_format (input : List Char) (label : String) :
    Except ParsingError (List Char) :=
  let cleaned := input.filter (fun c => !(c == ' '))
  if !(!cleaned.isEmpty && (cleaned.length % 2 == 0) && cleaned.all isAsciiHexdigitChar) then
    .error ⟨label ++ " " ++ sq ++ String.mk input ++ sq ++ " is not a valid hexadecimal string!"⟩
  else .ok input

/-- Embeds `HEX_ENCODED_PUBLIC_KEY_PREFIXES`. -/
def HEX_ENCODED_PUBLIC_KEY_PREFIXES : List (List Char) :=
  [['0', '2'], ['0', '3'], ['0', '4']]

/-- Embeds `has_hex_encoded_public_key_prefix`. -/
def has_hex_encoded_public_key_pfx (input : List Char) : Bool :=
  HEX_ENCODED_PUBLIC_KEY_PREFIXES.any (fun p => p.isPrefixOf input)

/-- Embeds `has_extended_key_prefix` (src/subcommands/utils/extended_key.rs). -/
def has_extended_key_pfx (key : List Char) : Bool :=
  "xpub".toList.isPrefixOf key || "xprv".toList.isPrefixOf key

/-- Embeds `parse_hex_encoded_public_key`. -/
def parse_hex_encoded_public_key (input : List Char) : Except ParsingError Unit :=
  if !has_hex_encoded_public_key_pfx input then
    .error ⟨"Hex encoded public key must start with 02, 03 or 04"⟩
  else if !(input.all isAsciiHexdigitChar) then
    .error ⟨"Hex encoded public key contains non-hexadecimal characters"⟩
  else if "04".toList.isPrefixOf input then
    if input.length ≠ 130 then
      .error ⟨"Hex encoded public key with prefix " ++ sq ++ "04" ++ sq ++
        " must be 130 characters long"⟩
    else .ok ()
  else if input.length ≠ 66 then
    .error ⟨"Hex encoded public key with prefix " ++ sq ++ "02" ++ sq ++ " or " ++ sq ++ "03" ++
      sq ++ " must be 66 characters long"⟩
  else .ok ()

/-- The three classes `validate_key` dispatches a bracket-free body to. -/
inductive KeyClass where
  | hexPublicKey
  | extendedKey
  | wif
deriving DecidableEq, Repr

/-- The dispatch order of `validate_key`: hex-public-key prefix first, then
extended-key prefix, otherwise WIF. -/
def classify_key (key : List Char) : KeyClass :=
  if has_hex_encoded_public_key_pfx key then .hexPublicKey
  else if has_extended_key_pfx key then .extendedKey
  else .wif

/-- Embeds `ScriptExpressionConfig` (src/structs/script_expression_config.rs);
its `default()` has both flags false. -/
structure ScriptExpressionConfig where
  compute_checksum : Bool
  verify_checksum : Bool
deriving DecidableEq, Repr

/-- `ScriptExpressionConfig::default()`. -/
def ScriptExpressionConfig.default : ScriptExpressionConfig := ⟨false, false⟩

/-- Embeds `divide_script_and_checksum`: split at the first `#`; everything
before is the script, everything after (when a `#` exists) the checksum. -/
def divide_script_and_checksum (input : List Char) : List Char × Option (List Char) :=
  match input.dropWhile (fun c => !(c == '#')) with
  | [] => (input.takeWhile (fun c => !(c == '#')), none)
  | _ :: rest => (input.takeWhile (fun c => !(c == '#')), some rest)

/-- The success message of the verify branch:
`Veritification of the '<script>#<checksum>' script succeeded!` (sic). -/
def verifMsg (script checksum : List Char) : List Char :=
  "Veritification of the ".toList ++ [Char.ofNat 39] ++ script ++ ['#'] ++ checksum ++
    [Char.ofNat 39] ++ " script succeeded!".toList

/-- Embeds `script_operation`, the checksum policy. The outer `Option` marks
the panic that `checksum_create` can raise in the compute branch; every other
branch is panic-free. -/
def script_operation (script : List Char) (checksum : Option (List Char))
    (config : ScriptExpressionConfig) : Option (Except ParsingError (List Char)) :=
  if config.compute_checksum then
    match checksum_create script with
    | none => none
    | some cs => some (.ok (script ++ ['#'] ++ cs))
  else
    match checksum with
    | some cks =>
      if checksum_length_check cks then
        if config.verify_checksum then
          if checksum_check script cks then
            some (.ok (verifMsg script cks))
          else
            some (.error ⟨"checksum verification failed!"⟩)
        else
          some (.ok (script ++ ['#'] ++ cks))
      else
        some (.error ⟨"checksum length is incorrect!"⟩)
    | none =>
      if config.verify_checksum then
        some (.error ⟨"checksum is required for verification!"⟩)
      else
        some (.ok script)

/-- Embeds `trimify`: slice from the first to the last non-space character
(U+0020 only); all-space input yields the empty result. -/
def trimify (s : List Char) : List Char :=
  ((s.dropWhile (fun c => c == ' ')).reverse.dropWhile (fun c => c == ' ')).reverse

/-- Embeds Rust's `str::split(',')` (the comma split of `extract_args`):
every separator splits, empty pieces included, and the empty string yields
one empty piece. -/
def splitOnChar (sep : Char) (s : List Char) : List (List Char) :=
  match s with
  | [] => [[]]
  | c :: rest =>
    if c == sep then [] :: splitOnChar sep rest
    else
      match splitOnChar sep rest with
      | h :: t => (c :: h) :: t
      | [] => [[c]]

/-- `script_arg_extraction_err` (src/utils/error_messages.rs). -/
def script_arg_extraction_err (label : String) : String :=
  "Could not extract arguments from " ++ sq ++ label ++ sq ++ " expression."

/-- `script_sh_unsupported_arg_err` (src/utils/error_messages.rs). -/
def script_sh_unsupported_arg_err (arg : List Char) : String :=
  sq ++ "sh" ++ sq ++ " script" ++ sq ++ "s argument must be either " ++ sq ++ "pk" ++ sq ++
    ", " ++ sq ++ "pkh" ++ sq ++ " or " ++ sq ++ "multi" ++ sq ++ " scripts, but " ++ sq ++
    String.mk arg ++ sq ++ " was given."

/-- Embeds `extract_args`: the trimmed text must be `( interior )`; the
interior is treated as a single argument when its trimmed form contains a
`(` anywhere and its last character is `)`, and is otherwise split on every
comma with each piece trimmed. -/
def extract_args (self : List Char) (label : String) :
    Except ParsingError (List (List Char)) :=
  if (trimify self).head? = some '(' ∧ 2 ≤ (trimify self).length ∧
      (trimify self).getLast? = some ')' then
    if (trimify (((trimify self).drop 1).dropLast)).contains '(' ∧
        (trimify (((trimify self).drop 1).dropLast)).getLast? = some ')' then
      .ok [trimify (trimify (((trimify self).drop 1).dropLast))]
    else
      .ok ((splitOnChar ',' (((trimify self).drop 1).dropLast)).map trimify)
  else
    .error ⟨script_arg_extraction_err label⟩

/-- The comma split at parenthesis depth 0 that the C5 claim describes. -/
def splitTopLevelGo (s : List Char) (depth : Nat) (cur : List Char) :
    List (List Char) :=
  match s with
  | [] => [cur.reverse]
  | c :: rest =>
    if c = ',' ∧ depth = 0 then
      cur.reverse :: splitTopLevelGo rest 0 []
    else
      splitTopLevelGo rest
        (if c = '(' then depth + 1 else if c = ')' then depth - 1 else depth) (c :: cur)

/-- Split on top-level commas (commas inside nested parentheses do not
split), as the C5 claim words it. -/
def splitTopLevel (s : List Char) : List (List Char) := splitTopLevelGo s 0 []

/-- Argument extraction exactly as the C5 claim words it: trim, require
`( interior )`, trim the interior; a trimmed interior that itself BEGINS
with a nested `(` and ends with `)` is one single argument; otherwise split
the interior on TOP-LEVEL commas and trim each piece. Written only to state
the claim, to be compared with the code's `extract_args`. -/
def extract_args_claim_spec (self : List Char) (label : String) :
    Except ParsingError (List (List Char)) :=
  if (trimify self).head? = some '(' ∧ 2 ≤ (trimify self).length ∧
      (trimify self).getLast? = some ')' then
    if (trimify (((trimify self).drop 1).dropLast)).head? = some '(' ∧
        (trimify (((trimify self).drop 1).dropLast)).getLast? = some ')' then
      .ok [trimify (((trimify self).drop 1).dropLast)]
    else
      .ok ((splitTopLevel (trimify (((trimify self).drop 1).dropLast))).map trimify)
  else
    .error ⟨script_arg_extraction_err label⟩

/-- Argument extraction as the amended C5 claim words it: trim; require the
text to start with `(` and end with `)`; take the interior; if the trimmed
interior contains a `(` anywhere and ends with `)`, the trimmed interior is
one single argument; otherwise split the interior on EVERY comma (also
commas inside nested parentheses) and trim each resulting piece; any other
shape yields the extraction error naming the keyword. -/
def extract_args_amended_spec (self : List Char) (label : String) :
    Except ParsingError (List (List Char)) :=
  if ['('].isPrefixOf (trimify self) ∧ [')'].isSuffixOf (trimify self) ∧
      2 ≤ (trimify self).length then
    if (trimify (((trimify self).drop 1).dropLast)).contains '(' ∧
        (trimify (((trimify self).drop 1).dropLast)).getLast? = some ')' then
      .ok [trimify (((trimify self).drop 1).dropLast)]
    else
      .ok ((splitOnChar ',' (((trimify self).drop 1).dropLast)).map trimify)
  else
    .error ⟨script_arg_extraction_err label⟩


/-! ### SHA-256 and base58 (the pure algorithms behind the sha2 and bs58
crates used by WIF validation) -/

/-- Truncate to 32 bits. -/
def w32 (x : Nat) : Nat := x % 4294967296

/-- 32-bit rotate right. -/
def rotr32 (n x : Nat) : Nat := w32 ((x >>> n) ||| (x <<< (32 - n)))

/-- The SHA-256 round constants. -/
def sha256_K : List Nat :=
  [0x428a2f98, 0x71374491, 0xb5c0fbcf, 0xe9b5dba5, 0x3956c25b, 0x59f111f1, 0x923f82a4] ++
    [0xab1c5ed5, 0xd807aa98, 0x12835b01, 0x243185be, 0x550c7dc3, 0x72be5d74, 0x80deb1fe] ++
    [0x9bdc06a7, 0xc19bf174, 0xe49b69c1, 0xefbe4786, 0x0fc19dc6, 0x240ca1cc, 0x2de92c6f] ++
    [0x4a7484aa, 0x5cb0a9dc, 0x76f988da, 0x983e5152, 0xa831c66d, 0xb00327c8, 0xbf597fc7] ++
    [0xc6e00bf3, 0xd5a79147, 0x06ca6351, 0x14292967, 0x27b70a85, 0x2e1b2138, 0x4d2c6dfc] ++
    [0x53380d13, 0x650a7354, 0x766a0abb, 0x81c2c92e, 0x92722c85, 0xa2bfe8a1, 0xa81a664b] ++
    [0xc24b8b70, 0xc76c51a3, 0xd192e819, 0xd6990624, 0xf40e3585, 0x106aa070, 0x19a4c116] ++
    [0x1e376c08, 0x2748774c, 0x34b0bcb5, 0x391c0cb3, 0x4ed8aa4a, 0x5b9cca4f, 0x682e6ff3] ++
    [0x748f82ee, 0x78a5636f, 0x84c87814, 0x8cc70208, 0x90befffa, 0xa4506ceb, 0xbef9a3f7] ++
    [0xc67178f2]

/-- The SHA-256 initial hash value. -/
def sha256_H0 : List Nat :=
  [0x6a09e667, 0xbb67ae85, 0x3c6ef372, 0xa54ff53a, 0x510e527f, 0x9b05688c, 0x1f83d9ab, 0x5be0cd19]

/-- Big-endian byte representation of `n` on `len` bytes. -/
def toBytesBE (n len : Nat) : List Nat :=
  (List.range len).map (fun i => (n >>> (8 * (len - 1 - i))) &&& 255)

/-- SHA-256 padding: `0x80`, zeros to 56 mod 64, 8-byte big-endian bit
length. -/
def sha256_pad (msg : List Nat) : List Nat :=
  msg ++ [0x80] ++ List.replicate ((120 - (msg.length + 1) % 64) % 64) 0 ++
    toBytesBE (8 * msg.length) 8

/-- Group bytes into big-endian 32-bit words. -/
def bytesToWords : List Nat → List Nat
  | a :: b :: c :: d :: rest => (a * 16777216 + b * 65536 + c * 256 + d) :: bytesToWords rest
  | _ => []

def sha_sigma0 (x : Nat) : Nat := rotr32 7 x ^^^ rotr32 18 x ^^^ (x >>> 3)

def sha_sigma1 (x : Nat) : Nat := rotr32 17 x ^^^ rotr32 19 x ^^^ (x >>> 10)

def sha_Sigma0 (x : Nat) : Nat := rotr32 2 x ^^^ rotr32 13 x ^^^ rotr32 22 x

def sha_Sigma1 (x : Nat) : Nat := rotr32 6 x ^^^ rotr32 11 x ^^^ rotr32 25 x

def sha_ch (x y z : Nat) : Nat := (x &&& y) ^^^ ((x ^^^ 4294967295) &&& z)

def sha_maj (x y z : Nat) : Nat := (x &&& y) ^^^ (x &&& z) ^^^ (y &&& z)

/-- Extend the 16 block words by `n` further schedule words. -/
def sha_extend : Nat → List Nat → List Nat
  | 0, ws => ws
  | n + 1, ws =>
    sha_extend n (ws ++ [w32 (sha_sigma1 (ws.getD (ws.length - 2) 0) + ws.getD (ws.length - 7) 0 +
      sha_sigma0 (ws.getD (ws.length - 15) 0) + ws.getD (ws.length - 16) 0)])

/-- One SHA-256 compression round on the state `[a,b,c,d,e,f,g,h]`. -/
def sha_compress_round (st : List Nat) (k w : Nat) : List Nat :=
  match st with
  | [a, b, c, d, e, f, g, h] =>
    ([w32 (w32 (h + sha_Sigma1 e + sha_ch e f g + k + w) + w32 (sha_Sigma0 a + sha_maj a b c)),
      a, b, c, w32 (d + w32 (h + sha_Sigma1 e + sha_ch e f g + k + w)), e, f, g])
  | _ => st

/-- Compress one 64-byte block into the running hash. -/
def sha_compress_block (H : List Nat) (block : List Nat) : List Nat :=
  List.zipWith (fun h s => w32 (h + s)) H
    ((List.zip sha256_K (sha_extend 48 (bytesToWords block))).foldl
      (fun st p => sha_compress_round st p.1 p.2) H)

/-- Cut a list into 64-byte chunks (the fuel is the list length, always
sufficient). -/
def chunks64_go : Nat → List Nat → List (List Nat)
  | 0, _ => []
  | _ + 1, [] => []
  | n + 1, l => l.take 64 :: chunks64_go n (l.drop 64)

def chunks64 (l : List Nat) : List (List Nat) := chunks64_go l.length l

/-- SHA-256 of a byte list, as a 32-byte list. -/
def sha256 (msg : List Nat) : List Nat :=
  (((chunks64 (sha256_pad msg)).foldl sha_compress_block sha256_H0).map
    (fun w => toBytesBE w 4)).flatten

/-- The Bitcoin base58 alphabet used by the bs58 crate. -/
def BASE58_ALPHABET : List Char :=
  "123456789ABCDEFGHJKLMNPQRSTUVWXYZabcdefghijkmnopqrstuvwxyz".toList

/-- Look up every character in an alphabet; `none` when any character is
absent. -/
def charValues (alpha : List Char) (s : List Char) : Option (List Nat) :=
  match s with
  | [] => some []
  | c :: cs =>
    match charIndex alpha c, charValues alpha cs with
    | some i, some is => some (i :: is)
    | _, _ => none

/-- Minimal big-endian byte representation of `n` (empty for 0); the fuel
`n` always suffices. -/
def natToBytesBE_go : Nat → Nat → List Nat → List Nat
  | 0, _, acc => acc
  | _ + 1, 0, acc => acc
  | f + 1, n, acc => natToBytesBE_go f (n / 256) (n % 256 :: acc)

def natToBytesBE (n : Nat) : List Nat := natToBytesBE_go n n []

/-- Embeds `bs58::decode(..).into_vec()`: base-58 big-number decoding with
one leading zero byte per leading `1`; `none` on a character outside the
alphabet. -/
def bs58_decode (s : List Char) : Option (List Nat) :=
  match charValues BASE58_ALPHABET s with
  | none => none
  | some vals =>
    some (List.replicate (s.takeWhile (fun c => c == '1')).length 0 ++
      natToBytesBE (vals.foldl (fun a v => a * 58 + v) 0))

/-! ### WIF validation (src/subcommands/utils/wallet_import_format.rs) -/

/-- The structural and checksum checks `validate_wif_private_key` performs on
the base58-decoded bytes: 37 or 38 bytes, first byte 0x80, 4-byte
double-SHA-256 checksum tail. -/
def validate_wif_bytes (bytes : List Nat) : Except ParsingError Unit :=
  if ¬(bytes.length = 37 ∨ bytes.length = 38) then
    .error ⟨"Invalid WIF format"⟩
  else if bytes.head? ≠ some 0x80 then
    .error ⟨"WIF must start with 0x80"⟩
  else if bytes.drop (bytes.length - 4) ≠
      (sha256 (sha256 (bytes.take (bytes.length - 4)))).take 4 then
    .error ⟨"WIF checksum does not match"⟩
  else
    .ok ()

/-- Embeds `validate_wif_private_key`. -/
def validate_wif_private_key (key : List Char) : Except ParsingError Unit :=
  match bs58_decode key with
  | none => .error ⟨"Could not convert WIF from base58"⟩
  | some bytes => validate_wif_bytes bytes

/-! ### Extended keys and the external bip32 engine
(src/subcommands/utils/extended_key.rs, src/subcommands/utils/key_origin.rs) -/

/-- The attributes of a parsed extended key, as the bip32 crate reports
them. -/
structure ExtendedKeyAttrs where
  depth : Nat
  parent_fingerprint : List Nat
  child_number : Nat
deriving DecidableEq, Repr

/-- The external extended-key engine (the bip32 crate): `XPub::from_str`,
`XPrv::from_str`, `ChildNumber::from_str`, `ExtendedKey::from_str` (with the
attributes of the parsed key) and the `DerivationPath` parser. The spec
treats this elliptic-curve engine as an external collaborator, so the
development is parameterised over it; errors carry the message produced by
the engine. -/
structure ExtEngine where
  xpubFromStr : List Char → Except String Unit
  xprvFromStr : List Char → Except String Unit
  childNumberFromStr : List Char → Except String Unit
  extendedKeyFromStr : List Char → Except String ExtendedKeyAttrs
  derivationPathParse : List Char → Except String Unit

/-- Embeds `validate_extended_key_attrs`: a zero-depth key must have an
all-zero parent fingerprint and a zero child index. -/
def validate_extended_key_attrs (attrs : ExtendedKeyAttrs) : Except ParsingError Unit :=
  if attrs.depth = 0 ∧ attrs.parent_fingerprint.any (fun e => e ≠ 0) then
    .error ⟨"Invalid key: the key cannot have zero depth with non-zero parent fingerprint"⟩
  else if attrs.depth = 0 ∧ attrs.child_number > 0 then
    .error ⟨"Invalid key: the key cannot have zero depth with non-zero index"⟩
  else
    .ok ()

/-- Validate the `/`-separated derivation segments through the engine's
`ChildNumber::from_str`, stopping at the first failure. -/
def validateSegments (E : ExtEngine) : List (List Char) → Except ParsingError Unit
  | [] => .ok ()
  | seg :: rest =>
    match E.childNumberFromStr seg with
    | .error e =>
      .error ⟨"Invalid derivation segment " ++ sq ++ String.mk seg ++ sq ++ ": " ++ e⟩
    | .ok _ => validateSegments E rest

/-- Embeds `validate_extended_key`: split at the first `/`, parse the key
part through the engine, drop a trailing `*` or `*h` segment, validate the
remaining segments. -/
def validate_extended_key (E : ExtEngine) (key : List Char) :
    Except ParsingError (List Char) :=
  if ¬has_extended_key_pfx key then
    .error ⟨"Key must start with xpub or xprv"⟩
  else
    match (if "xpub".toList.isPrefixOf (key.takeWhile (fun c => !(c == '/'))) then
        (E.xpubFromStr (key.takeWhile (fun c => !(c == '/')))).mapError
          (fun e => ParsingError.mk ("Invalid xpub key: " ++ e))
      else
        (E.xprvFromStr (key.takeWhile (fun c => !(c == '/')))).mapError
          (fun e => ParsingError.mk ("Invalid xprv key: " ++ e))) with
    | .error e => .error e
    | .ok _ =>
      match key.dropWhile (fun c => !(c == '/')) with
      | [] => .ok (key.takeWhile (fun c => !(c == '/')))
      | _ :: pathRest =>
        match validateSegments E
            (if (splitOnChar '/' pathRest).getLast? = some "*".toList ∨
                (splitOnChar '/' pathRest).getLast? = some "*h".toList then
              (splitOnChar '/' pathRest).dropLast
            else
              splitOnChar '/' pathRest) with
        | .error e => .error e
        | .ok _ => .ok (key.takeWhile (fun c => !(c == '/')))

/-- Embeds `validate_key_origin`: brackets, an 8-hex-digit fingerprint, then
a derivation path handed to the engine prefixed with `m`. -/
def validate_key_origin (E : ExtEngine) (key_origin : List Char) :
    Except ParsingError Unit :=
  if key_origin.head? = some '[' ∧ (key_origin.drop 1).getLast? = some ']' then
    if ((key_origin.drop 1).dropLast).length < 8 then
      .error ⟨"Fingerprint must be 8 characters long"⟩
    else if ¬(((key_origin.drop 1).dropLast).take 8).all isAsciiHexdigitChar then
      .error ⟨"Fingerprint is not valid hex"⟩
    else
      match E.derivationPathParse ('m' :: ((key_origin.drop 1).dropLast).drop 8) with
      | .error e => .error ⟨"Invalid derivation path: " ++ e⟩
      | .ok _ => .ok ()
  else
    .error ⟨"Key origin must start with [ and end with ]"⟩

/-! ### Key expression validator (src/subcommands/key_expression.rs) -/

/-- `ALLOWED_CHAR_SET` from key_expression.rs: 93 characters (the checksum
engine's `INPUT_CHARSET` without the double quote and the backslash). -/
def ALLOWED_CHAR_SET : List Char :=
  "0123456789()[],\x27/*abcdefgh@:$%\x7b\x7dIJKLMNOPQRSTUVWXYZ&+-.;<=>?!^_|~ijklmnopqrstuvwxyzABCDEFGH`# ".toList

/-- Embeds `validate_key`: dispatch a bracket-free non-empty body to the hex
public key, extended key, or WIF validator by its prefix. -/
def validate_key (E : ExtEngine) (key : List Char) : Except ParsingError Unit :=
  if key = [] then .error ⟨"Key is empty"⟩
  else if key.contains '[' || key.contains ']' then
    .error ⟨"Key can not include key origin"⟩
  else if has_hex_encoded_public_key_pfx key then
    parse_hex_encoded_public_key key
  else if has_extended_key_pfx key then
    match validate_extended_key E key with
    | .error e => .error e
    | .ok key_str =>
      match (E.extendedKeyFromStr key_str).mapError ParsingError.mk with
      | .error e => .error e
      | .ok attrs => validate_extended_key_attrs attrs
  else
    validate_wif_private_key key

/-- Embeds `split_key_expression`: a leading `[` demands a matching `]`,
splitting the input after it. -/
def split_key_expression (input : List Char) :
    Except ParsingError (Option (List Char) × List Char) :=
  if input.head? = some '[' then
    match charIndex input ']' with
    | none => .error ⟨"Missing closing bracket"⟩
    | some i => .ok (some (input.take (i + 1)), input.drop (i + 1))
  else
    .ok (none, input)

/-- Embeds `validate_key_expression`: non-empty, all characters in
`ALLOWED_CHAR_SET`, optional bracketed origin validated by
`validate_key_origin`, the remaining body by `validate_key`; on success the
input is returned unchanged. -/
def validate_key_expression (E : ExtEngine) (input : List Char) :
    Except ParsingError (List Char) :=
  if input = [] then .error ⟨"Input is empty"⟩
  else if input.any (fun c => !(ALLOWED_CHAR_SET.contains c)) then
    .error ⟨"Input contains invalid characters"⟩
  else
    match split_key_expression input with
    | .error e => .error e
    | .ok (key_origin, key) =>
      match (match key_origin with
             | some ko => validate_key_origin E ko
             | none => .ok ()) with
      | .error e => .error e
      | .ok _ =>
        match validate_key E key with
        | .error e => .error e
        | .ok _ => .ok input

/-! ### Script expression parser (src/subcommands/script_expression.rs) -/

/-- Embeds Rust's `str::parse::<i32>()` with its `ParseIntError` messages. -/
def parse_i32 (s : List Char) : Except ParsingError Int :=
  match s with
  | [] => .error ⟨"cannot parse integer from empty string"⟩
  | c :: rest =>
    if (if c = '+' ∨ c = '-' then rest else s) = [] then
      .error ⟨"invalid digit found in string"⟩
    else if ¬(if c = '+' ∨ c = '-' then rest else s).all
        (fun d => 48 ≤ d.toNat && d.toNat ≤ 57) then
      .error ⟨"invalid digit found in string"⟩
    else if c = '-' then
      if ((if c = '+' ∨ c = '-' then rest else s).foldl
          (fun a d => a * 10 + (d.toNat - 48)) 0) ≤ 2147483648 then
        .ok (-(((if c = '+' ∨ c = '-' then rest else s).foldl
          (fun a d => a * 10 + (d.toNat - 48)) 0 : Nat) : Int))
      else
        .error ⟨"number too small to fit in target type"⟩
    else
      if ((if c = '+' ∨ c = '-' then rest else s).foldl
          (fun a d => a * 10 + (d.toNat - 48)) 0) < 2147483648 then
        .ok (((if c = '+' ∨ c = '-' then rest else s).foldl
          (fun a d => a * 10 + (d.toNat - 48)) 0 : Nat) : Int)
      else
        .error ⟨"number too large to fit in target type"⟩

/-- Validate every `multi` key argument through `validate_key_expression`,
stopping at the first failure. -/
def validateKeys (E : ExtEngine) : List (List Char) → Except ParsingError Unit
  | [] => .ok ()
  | a :: rest =>
    match validate_key_expression E a with
    | .error e => .error e
    | .ok _ => validateKeys E rest

/-- The keyword-match block of `script_expression` on the trimified script,
parameterised over the recursive call used by the `sh` arm (`recur` receives
the argument and runs the full parser on it with the default
configuration). Branch order follows the source: raw, multi, pkh, pk, sh.
`none` propagates a panic from the recursive call. -/
def script_match_hof (recur : List Char → Option (Except ParsingError (List Char)))
    (E : ExtEngine) (t : List Char) : Option (Except ParsingError Unit) :=
  if t.take 3 = "raw".toList then
    match extract_args (t.drop 3) "raw" with
    | .error e => some (.error e)
    | .ok [arg] =>
      match assert_hexadecimal_format arg "raw function argument" with
      | .error e => some (.error e)
      | .ok _ => some (.ok ())
    | .ok _ => some (.error ⟨"script parsing failed!"⟩)
  else if t.take 5 = "multi".toList then
    match extract_args (t.drop 5) "multi" with
    | .error e => some (.error e)
    | .ok [] => some (.error ⟨"at least two arguments needed"⟩)
    | .ok (arg_count :: rest_of_args) =>
      match parse_i32 arg_count with
      | .error e => some (.error e)
      | .ok v =>
        if v < 0 then some (.error ⟨"arg count indicator cannot be negative"⟩)
        else if v.toNat ≤ rest_of_args.length then
          match validateKeys E rest_of_args with
          | .error e => some (.error e)
          | .ok _ => some (.ok ())
        else
          some (.error ⟨"arg count indicator cannot be higher than actual args count"⟩)
  else if t.take 3 = "pkh".toList then
    match extract_args (t.drop 3) "pkh" with
    | .error e => some (.error e)
    | .ok [arg] =>
      match validate_key_expression E arg with
      | .error e => some (.error e)
      | .ok _ => some (.ok ())
    | .ok _ => some (.error ⟨"exactly one argument is needed for pkh script"⟩)
  else if t.take 2 = "pk".toList then
    match extract_args (t.drop 2) "pk" with
    | .error e => some (.error e)
    | .ok [arg] =>
      match validate_key_expression E arg with
      | .error e => some (.error e)
      | .ok _ => some (.ok ())
    | .ok _ => some (.error ⟨"exactly one argument is needed for pk script"⟩)
  else if t.take 2 = "sh".toList then
    match extract_args (t.drop 2) "sh" with
    | .error e => some (.error e)
    | .ok [arg] =>
      if "pkh".toList.isPrefixOf arg || "pk".toList.isPrefixOf arg ||
          "multi".toList.isPrefixOf arg then
        match recur arg with
        | none => none
        | some (.error e) => some (.error e)
        | some (.ok _) => some (.ok ())
      else
        some (.error ⟨script_sh_unsupported_arg_err arg⟩)
    | .ok _ => some (.error ⟨"exactly one argument is needed for sh script"⟩)
  else
    some (.error ⟨"parsing of the script failed!"⟩)

/-- Fuelled form of `script_expression`: divide at the first `#`, run the
keyword match on the trimified script (recursing with the default
configuration in the `sh` arm), then apply the checksum policy to the
untrimmed script. The fuel only bounds the `sh` recursion depth;
`script_expression` passes fuel exceeding the input length, which never
exhausts (`script_expression_go_fuel`). -/
def script_expression_go (E : ExtEngine) :
    Nat → List Char → ScriptExpressionConfig → Option (Except ParsingError (List Char))
  | 0, _, _ => none
  | fuel + 1, input, config =>
    match script_match_hof
        (fun arg => script_expression_go E fuel arg ScriptExpressionConfig.default) E
        (trimify (divide_script_and_checksum input).1) with
    | none => none
    | some (.error e) => some (.error e)
    | some (.ok _) =>
      script_operation (divide_script_and_checksum input).1
        (divide_script_and_checksum input).2 config

/-- Embeds `script_expression`. -/
def script_expression (E : ExtEngine) (input : List Char)
    (config : ScriptExpressionConfig) : Option (Except ParsingError (List Char)) :=
  script_expression_go E (input.length + 1) input config

/-- The keyword-match block with the full (unfuelled) recursion: the grammar
check a script portion must pass before the checksum policy runs. -/
def script_match (E : ExtEngine) (t : List Char) : Option (Except ParsingError Unit) :=
  script_match_hof (fun arg => script_expression E arg ScriptExpressionConfig.default) E t

/-- An engine instantiation for concrete witnesses: every external parse
fails (the witnesses below only exercise hex-public-key and WIF bodies,
which never consult the engine). -/
def failEngine : ExtEngine :=
  { xpubFromStr := fun _ => .error "base58 error"
    xprvFromStr := fun _ => .error "base58 error"
    childNumberFromStr := fun _ => .error "invalid child number"
    extendedKeyFromStr := fun _ => .error "base58 error"
    derivationPathParse := fun _ => .error "invalid path" }


/-! ## Theorems -/

example : checksum_create "raw(deadbeef)".toList = some "89f8spxm".toList := by decide

example :
    checksum_check "raw(deadbeef)".toList "89f8spxm".toList = true := by decide

theorem xor_left_comm (a b c : Nat) : a ^^^ (b ^^^ c) = b ^^^ (a ^^^ c) := by
  rw [← Nat.xor_assoc, Nat.xor_comm a b, Nat.xor_assoc]

theorem shiftLeft_xor_distrib (a b n : Nat) :
    (a ^^^ b) <<< n = (a <<< n) ^^^ (b <<< n) := by
  apply Nat.eq_of_testBit_eq
  intro j
  simp [Nat.testBit_shiftLeft, Nat.testBit_xor, Bool.and_xor_distrib_left]

theorem shiftRight_xor_low {e n : Nat} (c : Nat) (he : e < 2 ^ n) :
    (c ^^^ e) >>> n = c >>> n := by
  apply Nat.eq_of_testBit_eq
  intro j
  have hbit : e.testBit (n + j) = false :=
    Nat.testBit_lt_two_pow
      (lt_of_lt_of_le he (Nat.pow_le_pow_right (by norm_num) (Nat.le_add_right n j)))
  simp [Nat.testBit_shiftRight, Nat.testBit_xor, hbit]

theorem and_mask_xor_low {e n : Nat} (c : Nat) (he : e < 2 ^ n) :
    (c ^^^ e) &&& (2 ^ n - 1) = (c &&& (2 ^ n - 1)) ^^^ e := by
  rw [Nat.and_xor_distrib_right, Nat.and_pow_two_sub_one_of_lt_two_pow he]

theorem shiftLeft_xor_add {a b n : Nat} (hb : b < 2 ^ n) :
    (a <<< n) ^^^ b = a <<< n + b := by
  apply Nat.eq_of_testBit_eq
  intro j
  rw [Nat.shiftLeft_eq, Nat.mul_comm, Nat.testBit_mul_pow_two_add a hb j]
  rcases Nat.lt_or_ge j n with hj | hj
  · simp [Nat.testBit_xor, Nat.testBit_mul_pow_two, Nat.not_le_of_lt hj, hj]
  · have hbj : b.testBit j = false :=
      Nat.testBit_lt_two_pow (lt_of_lt_of_le hb (Nat.pow_le_pow_right (by norm_num) hj))
    simp [Nat.testBit_xor, Nat.testBit_mul_pow_two, hj, Nat.not_lt_of_le hj, hbj]

theorem genTerm_lt {g M : Nat} (top i : Nat) (hg : g < M) (hM : 0 < M) :
    genTerm top i g < M := by
  unfold genTerm
  split <;> omega

theorem pmStep_lt {v : Nat} (c : Nat) (hv : v < 2 ^ 40) : pmStep c v < 2 ^ 40 := by
  unfold pmStep
  have hm : (0x7ffffffff : Nat) = 2 ^ 35 - 1 := by norm_num
  have h1 : c &&& 0x7ffffffff ≤ 0x7ffffffff := Nat.and_le_right
  have h2 : (c &&& 0x7ffffffff) <<< 5 < 2 ^ 40 := by
    rw [Nat.shiftLeft_eq]
    norm_num
    omega
  refine Nat.xor_lt_two_pow ?_ (genTerm_lt _ _ (by norm_num) (by norm_num))
  refine Nat.xor_lt_two_pow ?_ (genTerm_lt _ _ (by norm_num) (by norm_num))
  refine Nat.xor_lt_two_pow ?_ (genTerm_lt _ _ (by norm_num) (by norm_num))
  refine Nat.xor_lt_two_pow ?_ (genTerm_lt _ _ (by norm_num) (by norm_num))
  refine Nat.xor_lt_two_pow ?_ (genTerm_lt _ _ (by norm_num) (by norm_num))
  exact Nat.xor_lt_two_pow h2 hv

theorem pmStep_xor_low (c v : Nat) : pmStep c v = pmStep c 0 ^^^ v := by
  unfold pmStep
  simp only [Nat.xor_zero]
  simp [Nat.xor_assoc, Nat.xor_comm, xor_left_comm]

theorem pmStep_xor_err {e : Nat} (c v : Nat) (he : e < 2 ^ 35) :
    pmStep (c ^^^ e) v = pmStep c v ^^^ (e <<< 5) := by
  unfold pmStep
  have hm : (0x7ffffffff : Nat) = 2 ^ 35 - 1 := by norm_num
  rw [hm, shiftRight_xor_low c he, and_mask_xor_low c he, shiftLeft_xor_distrib]
  simp [Nat.xor_assoc, Nat.xor_comm, xor_left_comm]

theorem foldl_pmStep_lt {vs : List Nat} {c : Nat} (hvs : ∀ v ∈ vs, v < 2 ^ 40)
    (hc : c < 2 ^ 40) : vs.foldl pmStep c < 2 ^ 40 := by
  induction vs generalizing c with
  | nil => exact hc
  | cons v tl ih =>
    exact ih (fun x hx => hvs x (List.mem_cons_of_mem _ hx))
      (pmStep_lt c (hvs v (List.mem_cons_self v tl)))

theorem foldl_pmStep_xor (vs : List Nat) (c e : Nat)
    (he : e * 2 ^ (5 * vs.length) < 2 ^ 40) :
    vs.foldl pmStep (c ^^^ e) = vs.foldl pmStep c ^^^ (e <<< (5 * vs.length)) := by
  induction vs generalizing c e with
  | nil => simp
  | cons v tl ih =>
    have hlen : (v :: tl).length = tl.length + 1 := rfl
    have hpow : (2 : Nat) ^ (5 * (tl.length + 1)) = 2 ^ (5 * tl.length) * 32 := by
      rw [Nat.mul_succ, Nat.pow_add]
    have he' : e * (2 ^ (5 * tl.length) * 32) < 2 ^ 40 := by
      rw [hlen, hpow] at he
      exact he
    have he32 : e <<< 5 * 2 ^ (5 * tl.length) < 2 ^ 40 := by
      rw [Nat.shiftLeft_eq]
      calc e * 2 ^ 5 * 2 ^ (5 * tl.length) = e * (2 ^ (5 * tl.length) * 32) := by ring
        _ < 2 ^ 40 := he'
    have heSmall : e < 2 ^ 35 := by
      have h32 : (32 : Nat) ≤ 2 ^ (5 * tl.length) * 32 := by
        have := @Nat.one_le_two_pow (5 * tl.length)
        omega
      have hfin : e * 32 < 2 ^ 40 := by
        calc e * 32 ≤ e * (2 ^ (5 * tl.length) * 32) := Nat.mul_le_mul_left e h32
          _ < 2 ^ 40 := he'
      have h40 : (2 : Nat) ^ 40 = 2 ^ 35 * 32 := by norm_num
      rw [h40] at hfin
      exact Nat.lt_of_mul_lt_mul_right hfin
    have harith : 5 + 5 * tl.length = 5 * (v :: tl).length := by
      rw [hlen]
      ring
    simp only [List.foldl_cons]
    rw [pmStep_xor_err c v heSmall, ih (pmStep c v) (e <<< 5) he32,
      ← Nat.shiftLeft_add, harith]

theorem foldl_encStep_shift (tl : List Nat) (a : Nat) :
    tl.foldl encStep a = (a <<< (5 * tl.length)) ^^^ tl.foldl encStep 0 := by
  induction tl generalizing a with
  | nil => simp
  | cons w tl ih =>
    have hzw : encStep 0 w = w := by simp [encStep]
    have harith : 5 + 5 * tl.length = 5 * (w :: tl).length := by
      simp [List.length_cons]
      ring
    calc (w :: tl).foldl encStep a = tl.foldl encStep (encStep a w) := rfl
      _ = ((encStep a w) <<< (5 * tl.length)) ^^^ tl.foldl encStep 0 := ih _
      _ = ((a <<< 5) <<< (5 * tl.length)) ^^^ ((w <<< (5 * tl.length)) ^^^ tl.foldl encStep 0) := by
          rw [encStep, shiftLeft_xor_distrib, Nat.xor_assoc]
      _ = (a <<< (5 * (w :: tl).length)) ^^^ ((w <<< (5 * tl.length)) ^^^ tl.foldl encStep 0) := by
          rw [← Nat.shiftLeft_add, harith]
      _ = (a <<< (5 * (w :: tl).length)) ^^^ (w :: tl).foldl encStep 0 := by
          rw [List.foldl_cons, hzw, ih w]

theorem foldl_pm_vs_zeros (vs : List Nat) (c : Nat) (hlen : vs.length ≤ 8)
    (hv : ∀ v ∈ vs, v < 32) :
    vs.foldl pmStep c = (List.replicate vs.length 0).foldl pmStep c ^^^ vsEncode vs := by
  induction vs generalizing c with
  | nil => simp [vsEncode]
  | cons v tl ih =>
    have hv0 : v < 32 := hv v (List.mem_cons_self v tl)
    have htl : ∀ x ∈ tl, x < 32 := fun x hx => hv x (List.mem_cons_of_mem _ hx)
    have hlen' : tl.length ≤ 7 := by
      simpa [List.length_cons] using hlen
    have hbound : v * 2 ^ (5 * tl.length) < 2 ^ 40 := by
      have hple : (2 : Nat) ^ (5 * tl.length) ≤ 2 ^ 35 :=
        Nat.pow_le_pow_right (by norm_num) (by omega)
      calc v * 2 ^ (5 * tl.length) ≤ 31 * 2 ^ 35 := by
            exact Nat.mul_le_mul (by omega) hple
        _ < 2 ^ 40 := by norm_num
    have henc : vsEncode (v :: tl) = (v <<< (5 * tl.length)) ^^^ vsEncode tl := by
      unfold vsEncode
      rw [List.foldl_cons]
      have hzv : encStep 0 v = v := by simp [encStep]
      rw [hzv, foldl_encStep_shift tl v]
    calc (v :: tl).foldl pmStep c = tl.foldl pmStep (pmStep c v) := rfl
      _ = tl.foldl pmStep (pmStep c 0 ^^^ v) := by rw [← pmStep_xor_low]
      _ = tl.foldl pmStep (pmStep c 0) ^^^ (v <<< (5 * tl.length)) :=
          foldl_pmStep_xor tl (pmStep c 0) v hbound
      _ = ((List.replicate tl.length 0).foldl pmStep (pmStep c 0) ^^^ vsEncode tl)
            ^^^ (v <<< (5 * tl.length)) := by rw [ih (pmStep c 0) (by omega) htl]
      _ = (List.replicate (v :: tl).length 0).foldl pmStep c ^^^ vsEncode (v :: tl) := by
          rw [henc, List.length_cons, List.replicate_succ, List.foldl_cons]
          rw [Nat.xor_assoc, Nat.xor_comm (vsEncode tl)]

theorem createDigits_explicit (t : Nat) :
    createDigits t =
      [(t >>> 35) &&& 31, (t >>> 30) &&& 31, (t >>> 25) &&& 31, (t >>> 20) &&& 31,
       (t >>> 15) &&& 31, (t >>> 10) &&& 31, (t >>> 5) &&& 31, (t >>> 0) &&& 31] := by
  have h8 : List.range 8 = [0, 1, 2, 3, 4, 5, 6, 7] := rfl
  simp [createDigits, h8]

theorem and31_lt (x : Nat) : x &&& 31 < 32 := by
  have h : x &&& 31 ≤ 31 := Nat.and_le_right
  omega

theorem createDigits_lt {t : Nat} : ∀ v ∈ createDigits t, v < 32 := by
  intro v hv
  rcases List.mem_map.mp hv with ⟨i, _, rfl⟩
  exact and31_lt _

theorem createDigits_length (t : Nat) : (createDigits t).length = 8 := by
  simp [createDigits]

theorem encStep_and31 (a x : Nat) : encStep a (x &&& 31) = a * 32 + x % 32 := by
  have h31 : (31 : Nat) = 2 ^ 5 - 1 := by norm_num
  have hmod : x &&& 31 = x % 32 := by
    rw [h31, Nat.and_pow_two_sub_one_eq_mod]
  have hlt : x &&& 31 < 2 ^ 5 := by
    rw [hmod]
    exact Nat.mod_lt _ (by norm_num)
  rw [encStep, shiftLeft_xor_add hlt, Nat.shiftLeft_eq, hmod]

theorem vsEncode_createDigits {t : Nat} (ht : t < 2 ^ 40) :
    vsEncode (createDigits t) = t := by
  rw [createDigits_explicit]
  unfold vsEncode
  simp only [List.foldl_cons, List.foldl_nil, encStep_and31, Nat.shiftRight_eq_div_pow]
  norm_num
  omega

theorem charIndex_lt {s : List Char} {c : Char} {i : Nat}
    (h : charIndex s c = some i) : i < s.length := by
  induction s generalizing i with
  | nil => simp [charIndex] at h
  | cons x xs ih =>
    rw [charIndex] at h
    split at h
    · simp_all
      omega
    · rcases h' : charIndex xs c with _ | j
      · rw [h'] at h
        simp at h
      · rw [h'] at h
        simp at h
        have := ih h'
        simp [← h, List.length_cons]
        omega

theorem charIndices_of_all {s : List Char}
    (h : ∀ c ∈ s, (charIndex INPUT_CHARSET c).isSome) :
    ∃ idxs, charIndices s = some idxs ∧ ∀ i ∈ idxs, i < 95 := by
  induction s with
  | nil => exact ⟨[], rfl, by simp⟩
  | cons c cs ih =>
    rcases ih (fun x hx => h x (List.mem_cons_of_mem _ hx)) with ⟨idxs, hidxs, hlt⟩
    have hc := h c (List.mem_cons_self c cs)
    rcases hi : charIndex INPUT_CHARSET c with _ | i
    · rw [hi] at hc
      simp at hc
    · refine ⟨i :: idxs, ?_, ?_⟩
      · rw [charIndices, hi, hidxs]
      · intro j hj
        rcases List.mem_cons.mp hj with rfl | hj
        · have := charIndex_lt hi
          have hlen : INPUT_CHARSET.length = 95 := by decide
          omega
        · exact hlt j hj

theorem getD_le_two {l : List Nat} {i : Nat} (h : ∀ g ∈ l, g ≤ 2) :
    l.getD i 0 ≤ 2 := by
  rcases h' : l[i]? with _ | g
  · simp [List.getD, h']
  · have hmem : g ∈ l := by
      have := List.getElem?_eq_some.mp h'
      rcases this with ⟨hlt, hEq⟩
      exact hEq ▸ List.getElem_mem hlt
    have hg := h g hmem
    simp [List.getD, h']
    exact hg

theorem expandStep_inv {st : List Nat × List Nat} {idx : Nat}
    (h : expandInv st) (hidx : idx < 95) : expandInv (expandStep st idx) := by
  rcases h with ⟨hsym, hgrp⟩
  have hand : idx &&& 31 < 32 := and31_lt idx
  have hshift : idx >>> 5 ≤ 2 := by
    rw [Nat.shiftRight_eq_div_pow]
    omega
  have hgrp' : ∀ g ∈ st.2 ++ [idx >>> 5], g ≤ 2 := by
    intro g hg
    rcases List.mem_append.mp hg with hg | hg
    · exact hgrp g hg
    · simp at hg
      omega
  have hsym' : ∀ v ∈ st.1 ++ [idx &&& 31], v < 32 := by
    intro v hv
    rcases List.mem_append.mp hv with hv | hv
    · exact hsym v hv
    · rw [List.mem_singleton] at hv
      omega
  unfold expandStep
  split
  · refine ⟨?_, fun g hg => absurd hg (List.not_mem_nil g)⟩
    intro v hv
    rcases List.mem_append.mp hv with hv | hv
    · exact hsym' v hv
    · rw [List.mem_singleton] at hv
      have g0 := @getD_le_two _ 0 hgrp'
      have g1 := @getD_le_two _ 1 hgrp'
      have g2 := @getD_le_two _ 2 hgrp'
      omega
  · exact ⟨hsym', hgrp'⟩

theorem foldl_expandStep_inv (idxs : List Nat) (st : List Nat × List Nat)
    (h : expandInv st) (hidx : ∀ i ∈ idxs, i < 95) :
    expandInv (idxs.foldl expandStep st) := by
  induction idxs generalizing st with
  | nil => exact h
  | cons i tl ih =>
    exact ih (expandStep st i) (expandStep_inv h (hidx i (List.mem_cons_self i tl)))
      (fun j hj => hidx j (List.mem_cons_of_mem _ hj))

theorem expandTail_lt {groups : List Nat} (h : ∀ g ∈ groups, g ≤ 2) :
    ∀ v ∈ expandTail groups, v < 32 := by
  intro v hv
  unfold expandTail at hv
  split at hv
  · rename_i g0
    simp at hv
    have := h _ (List.mem_cons_self _ _)
    omega
  · rename_i g0 g1
    simp at hv
    have h0 := h g0 (List.mem_cons_self _ _)
    have h1 := h g1 (List.mem_cons_of_mem _ (List.mem_cons_self _ _))
    omega
  · simp [expandTail] at hv

theorem checksum_expand_syms_lt {s : List Char} {syms : List Nat}
    (hall : ∀ c ∈ s, (charIndex INPUT_CHARSET c).isSome)
    (h : checksum_expand s = some syms) : ∀ v ∈ syms, v < 32 := by
  rcases charIndices_of_all hall with ⟨idxs, hidxs, hlt⟩
  rw [checksum_expand, hidxs] at h
  simp at h
  have hinv : expandInv (idxs.foldl expandStep ([], [])) :=
    foldl_expandStep_inv idxs ([], []) ⟨by simp, by simp⟩ hlt
  intro v hv
  rw [← h] at hv
  rcases List.mem_append.mp hv with hv | hv
  · exact hinv.1 v hv
  · exact expandTail_lt hinv.2 v hv

theorem charIndex_isSome_iff {s : List Char} {c : Char} :
    (charIndex s c).isSome = true ↔ c ∈ s := by
  induction s with
  | nil => simp [charIndex]
  | cons x xs ih =>
    rw [charIndex]
    split
    · rename_i hxc
      rw [beq_iff_eq] at hxc
      simp [hxc]
    · rename_i hxc
      rw [beq_iff_eq] at hxc
      have hmapSome : ∀ (o : Option Nat), (Option.map (fun x => x + 1) o).isSome = o.isSome := by
        intro o
        cases o <;> rfl
      rw [hmapSome, ih, List.mem_cons]
      constructor
      · exact Or.inr
      · rintro (rfl | hmem)
        · exact absurd rfl hxc
        · exact hmem

theorem cc_lookup_roundtrip :
    ∀ d, d < 32 →
      charIndex CHECKSUM_CHARSET ((CHECKSUM_CHARSET.get? d).getD (Char.ofNat 0)) = some d := by
  decide

/-- C1. For every string composed only of `INPUT_CHARSET` characters,
`checksum_create` succeeds (does not hit the out-of-alphabet panic) and
`checksum_check` accepts the checksum it produced: the create/check
round-trip of the checksum engine. -/
theorem C1_create_check_roundtrip (s : List Char)
    (h : ∀ c ∈ s, c ∈ INPUT_CHARSET) :
    ∃ cs, checksum_create s = some cs ∧ checksum_check s cs = true := by
  have hsome : ∀ c ∈ s, (charIndex INPUT_CHARSET c).isSome = true :=
    fun c hc => charIndex_isSome_iff.mpr (h c hc)
  rcases charIndices_of_all hsome with ⟨idxs, hidxs, hlt95⟩
  have hexp : checksum_expand s =
      some ((idxs.foldl expandStep ([], [])).1 ++ expandTail (idxs.foldl expandStep ([], [])).2) := by
    rw [checksum_expand, hidxs]
  set syms := (idxs.foldl expandStep ([], [])).1 ++ expandTail (idxs.foldl expandStep ([], [])).2
    with hsymsDef
  have hsymlt : ∀ v ∈ syms, v < 32 := checksum_expand_syms_lt hsome hexp
  set t := checksum_polymod (syms ++ List.replicate 8 0) ^^^ 1 with htDef
  set cs := (List.range 8).map (fun i =>
    (CHECKSUM_CHARSET.get? ((t >>> (5 * (7 - i))) &&& 31)).getD (Char.ofNat 0)) with hcsDef
  have hcreate : checksum_create s = some cs := by
    rw [checksum_create, hexp]
  -- bounds on the folded value
  have hall40 : ∀ v ∈ syms ++ List.replicate 8 0, v < 2 ^ 40 := by
    intro v hv
    rcases List.mem_append.mp hv with hv | hv
    · have := hsymlt v hv
      have : (32 : Nat) ≤ 2 ^ 40 := by norm_num
      omega
    · have := List.eq_of_mem_replicate hv
      subst this
      norm_num
  have hp40 : checksum_polymod (syms ++ List.replicate 8 0) < 2 ^ 40 :=
    foldl_pmStep_lt hall40 (by norm_num)
  have ht40 : t < 2 ^ 40 := Nat.xor_lt_two_pow hp40 (by norm_num)
  -- the produced characters and their symbol values
  have hcs_len : cs.length = 8 := by simp [hcsDef]
  have hcs_mem : ∀ ch ∈ cs, (charIndex CHECKSUM_CHARSET ch).isSome = true := by
    intro ch hch
    rcases List.mem_map.mp hch with ⟨i, _, rfl⟩
    rw [cc_lookup_roundtrip _ (and31_lt _)]
    rfl
  have hmapback :
      cs.map (fun ch => (charIndex CHECKSUM_CHARSET ch).getD 0) = createDigits t := by
    rw [hcsDef, List.map_map, createDigits]
    apply List.map_congr_left
    intro i _
    simp only [Function.comp]
    rw [cc_lookup_roundtrip _ (and31_lt _)]
    rfl
  -- the verification fold evaluates to 1
  have hpoly : checksum_polymod (syms ++ createDigits t) = 1 := by
    have hbase : checksum_polymod (syms ++ createDigits t) =
        (createDigits t).foldl pmStep (syms.foldl pmStep 1) := by
      rw [checksum_polymod, List.foldl_append]
    have hzeros : checksum_polymod (syms ++ List.replicate 8 0) =
        (List.replicate 8 0).foldl pmStep (syms.foldl pmStep 1) := by
      rw [checksum_polymod, List.foldl_append]
    rw [hbase, foldl_pm_vs_zeros _ _ (by rw [createDigits_length]) createDigits_lt,
      createDigits_length, vsEncode_createDigits ht40, ← hzeros, htDef,
      ← Nat.xor_assoc, Nat.xor_self, Nat.zero_xor]
  refine ⟨cs, hcreate, ?_⟩
  rw [checksum_check]
  simp only [hexp, ← hsymsDef]
  have h1 : checksum_length_check cs = true := by
    rw [checksum_length_check, hcs_len]
    rfl
  have h2 : cs.all (fun c => (charIndex CHECKSUM_CHARSET c).isSome) = true :=
    List.all_eq_true.mpr hcs_mem
  have h3 : s.all (fun c => (charIndex INPUT_CHARSET c).isSome) = true :=
    List.all_eq_true.mpr hsome
  rw [h1, h2, h3, hmapback, hpoly]
  rfl

/-- Witness for C1 at the concrete script `raw(deadbeef)`. -/
theorem C1_create_check_roundtrip_witness :
    ∃ cs, checksum_create "raw(deadbeef)".toList = some cs ∧
      checksum_check "raw(deadbeef)".toList cs = true :=
  C1_create_check_roundtrip "raw(deadbeef)".toList (by decide)

example : specInputCharset93.length = 93 := by decide

example : INPUT_CHARSET.length = 95 := by decide

/-- Counterexample to C2 as stated: the double-quote character is outside the
93-character alphabet the claim describes, yet a script consisting of that
character passes `checksum_check` with a suitable checksum — the code's
`INPUT_CHARSET` has 95 characters (it also holds the double quote and the
backslash). -/
theorem C2_93charset_counterexample :
    ¬ ('"' ∈ specInputCharset93) ∧
      ∃ cks, checksum_check ['"'] cks = true :=
  ⟨by decide, ⟨(checksum_create ['"']).getD [], by decide⟩⟩

/-- C2 (amended): `checksum_check` returns true only if the checksum has
exactly 8 characters all drawn from the 32-character checksum alphabet and
every script character belongs to the code's 95-character `INPUT_CHARSET`
(the 93 characters the spec lists, plus the double quote and the backslash);
for a script with any character outside that 95-character set,
`checksum_check` is false for every checksum. -/
theorem C2_check_only_if_amended (script checksum : List Char) :
    (checksum_check script checksum = true →
      checksum.length = 8 ∧ (∀ c ∈ checksum, c ∈ CHECKSUM_CHARSET) ∧
        ∀ c ∈ script, c ∈ INPUT_CHARSET) ∧
    ((∃ c ∈ script, c ∉ INPUT_CHARSET) → checksum_check script checksum = false) := by
  have hmain : checksum_check script checksum = true →
      checksum.length = 8 ∧ (∀ c ∈ checksum, c ∈ CHECKSUM_CHARSET) ∧
        ∀ c ∈ script, c ∈ INPUT_CHARSET := by
    intro hc
    rw [checksum_check] at hc
    rw [Bool.and_eq_true, Bool.and_eq_true, Bool.and_eq_true] at hc
    obtain ⟨⟨⟨hlen, hcks⟩, hscr⟩, -⟩ := hc
    refine ⟨?_, ?_, ?_⟩
    · rw [checksum_length_check] at hlen
      exact beq_iff_eq.mp hlen
    · intro c hcmem
      exact charIndex_isSome_iff.mp (List.all_eq_true.mp hcks c hcmem)
    · intro c hcmem
      exact charIndex_isSome_iff.mp (List.all_eq_true.mp hscr c hcmem)
  refine ⟨hmain, ?_⟩
  rintro ⟨c, hcmem, hnotin⟩
  cases hchk : checksum_check script checksum with
  | false => rfl
  | true => exact absurd ((hmain hchk).2.2 c hcmem) hnotin

/-- Witness for C2 (amended): a script containing a tab (outside the
alphabet) is rejected with every checksum, here the otherwise-valid one. -/
theorem C2_check_only_if_amended_witness :
    checksum_check ['\t'] "89f8spxm".toList = false :=
  (C2_check_only_if_amended ['\t'] "89f8spxm".toList).2 ⟨'\t', by decide, by decide⟩

/-- C3 (code evidence): on the odd-length string "abc" `decode_hex` panics
(out-of-bounds byte range) instead of returning an error, and on "+f" — a
2-character group containing the non-hexadecimal character `+` — it succeeds
with byte 15, because `u8::from_str_radix` accepts a leading sign. -/
theorem C3_decode_hex_deviations :
    decode_hex "abc".toList = .panicked ∧ decode_hex "+f".toList = .ok [15] ∧
      decode_hex "deadbeef".toList = .ok [0xde, 0xad, 0xbe, 0xef] := by
  refine ⟨?_, ?_, ?_⟩ <;> decide

/-- Counterexample to C4 as stated: the body `02zz` starts with `02` but is
not entirely hexadecimal, so by the claim it should be treated as WIF; the
code dispatches on the prefix alone and classifies it as a hex public key
(failing inside that branch with a non-hexadecimal-characters error). -/
theorem C4_hex_classifier_counterexample :
    classify_key "02zz".toList = .hexPublicKey ∧
      "02zz".toList.all isAsciiHexdigitChar = false ∧
      classify_key "02zz".toList ≠ .wif ∧
      parse_hex_encoded_public_key "02zz".toList =
        .error ⟨"Hex encoded public key contains non-hexadecimal characters"⟩ := by
  refine ⟨?_, ?_, ?_, ?_⟩ <;> decide

/-- C4 (amended): classification is by prefix alone — a body starting with
02, 03 or 04 is classified as a hex public key (inside that branch a
non-hexadecimal character is an error, and the length must be exactly 130
for an 04 prefix and exactly 66 for 02/03); a body starting with neither
02/03/04 nor xpub/xprv is treated as WIF. -/
theorem C4_classifier_amended (key : List Char) :
    (classify_key key = .hexPublicKey ↔ has_hex_encoded_public_key_pfx key = true) ∧
    (classify_key key = .wif ↔
      (has_hex_encoded_public_key_pfx key = false ∧ has_extended_key_pfx key = false)) ∧
    (has_hex_encoded_public_key_pfx key = true →
      (parse_hex_encoded_public_key key = .ok () ↔
        (key.all isAsciiHexdigitChar = true ∧
          key.length = (if "04".toList.isPrefixOf key then 130 else 66)))) := by
  refine ⟨?_, ?_, ?_⟩
  · unfold classify_key
    split
    · simp_all
    · split <;> simp_all
  · unfold classify_key
    split
    · simp_all
    · split <;> simp_all
  · intro hpfx
    unfold parse_hex_encoded_public_key
    rw [hpfx]
    simp only [Bool.not_true, Bool.false_eq_true, if_false]
    rcases hhex : key.all isAsciiHexdigitChar with _ | _
    · simp
    · simp only [Bool.not_true, Bool.false_eq_true, if_false]
      split
      · split <;> simp_all
      · split <;> simp_all

/-- Witness for C4 (amended) at a valid compressed public key body. -/
theorem C4_classifier_amended_witness :
    parse_hex_encoded_public_key
      "0260b2003c386519fc9eadf2b5cf124dd8eea4c4e68d5e154050a9346ea98ce600".toList = .ok () :=
  (((C4_classifier_amended
      "0260b2003c386519fc9eadf2b5cf124dd8eea4c4e68d5e154050a9346ea98ce600".toList).2.2
    (by decide)).mpr (by refine ⟨?_, ?_⟩ <;> decide))

/-- C8. With `compute = false`: a present checksum tail whose length is not 8
always produces the length error (never the mismatch error); with
`verify = true` and no tail, the result is the required-for-verification
error; and the mismatch error can only arise for a present 8-character tail
under `verify = true`. All three error messages are distinct. -/
theorem C8_checksum_policy (script : List Char) (checksum : Option (List Char))
    (config : ScriptExpressionConfig) (hc : config.compute_checksum = false) :
    (∀ cks, checksum = some cks → cks.length ≠ 8 →
      script_operation script checksum config =
        some (.error ⟨"checksum length is incorrect!"⟩)) ∧
    (config.verify_checksum = true → checksum = none →
      script_operation script checksum config =
        some (.error ⟨"checksum is required for verification!"⟩)) ∧
    (∀ e, script_operation script checksum config = some (.error e) →
      e.message = "checksum verification failed!" →
      ∃ cks, checksum = some cks ∧ cks.length = 8 ∧ config.verify_checksum = true) := by
  refine ⟨?_, ?_, ?_⟩
  · rintro cks rfl hlen
    unfold script_operation
    rw [hc]
    have hlc : checksum_length_check cks = false := by
      rw [checksum_length_check]
      simp [hlen]
    simp [hlc]
  · rintro hv rfl
    unfold script_operation
    rw [hc]
    simp [hv]
  · intro e he hmsg
    rcases checksum with _ | cks
    · rcases hv : config.verify_checksum with _ | _
      · have hval : script_operation script none config = some (.ok script) := by
          unfold script_operation
          rw [hc, hv]
          simp
        rw [hval] at he
        simp at he
      · have hval : script_operation script none config =
            some (.error ⟨"checksum is required for verification!"⟩) := by
          unfold script_operation
          rw [hc, hv]
          simp
        rw [hval] at he
        simp at he
        subst he
        simp at hmsg
    · rcases hlc : checksum_length_check cks with _ | _
      · have hval : script_operation script (some cks) config =
            some (.error ⟨"checksum length is incorrect!"⟩) := by
          unfold script_operation
          rw [hc]
          simp [hlc]
        rw [hval] at he
        simp at he
        subst he
        simp at hmsg
      · rcases hv : config.verify_checksum with _ | _
        · have hval : script_operation script (some cks) config =
              some (.ok (script ++ ['#'] ++ cks)) := by
            unfold script_operation
            rw [hc]
            simp [hlc, hv]
          rw [hval] at he
          simp at he
        · refine ⟨cks, rfl, ?_, by simp [hv]⟩
          rw [checksum_length_check] at hlc
          exact beq_iff_eq.mp hlc

/-- Witness for C8 at a concrete script with a 3-character tail. -/
theorem C8_checksum_policy_witness :
    script_operation "raw(deadbeef)".toList (some "abc".toList) ⟨false, true⟩ =
      some (.error ⟨"checksum length is incorrect!"⟩) :=
  (C8_checksum_policy "raw(deadbeef)".toList (some "abc".toList) ⟨false, true⟩ rfl).1
    "abc".toList rfl (by decide)

/-- Counterexample to C5 as stated: on `(pk(a),pk(b))` the code returns the
whole interior as ONE argument (it tests `contains '('`, not "begins with"),
while the claim's description returns two arguments; and on `(f(a,b)x)` the
code splits at the comma inside the nested parentheses, while the claim's
top-level split keeps one argument. -/
theorem C5_extract_args_counterexample :
    extract_args "(pk(a),pk(b))".toList "multi" = .ok ["pk(a),pk(b)".toList] ∧
    extract_args_claim_spec "(pk(a),pk(b))".toList "multi" =
      .ok ["pk(a)".toList, "pk(b)".toList] ∧
    extract_args "(f(a,b)x)".toList "raw" = .ok ["f(a".toList, "b)x".toList] ∧
    extract_args_claim_spec "(f(a,b)x)".toList "raw" = .ok ["f(a,b)x".toList] := by
  refine ⟨?_, ?_, ?_, ?_⟩ <;> decide

theorem head_eq_iff_singleton_isPrefixOf {t : List Char} {c : Char} :
    t.head? = some c ↔ [c].isPrefixOf t = true := by
  cases t with
  | nil =>
    constructor
    · intro h
      simp at h
    · intro h
      simp [List.isPrefixOf] at h
  | cons x xs =>
    constructor
    · intro h
      rw [List.head?_cons] at h
      have hx : x = c := Option.some.inj h
      subst hx
      show (x == x && List.isPrefixOf [] xs) = true
      simp [List.isPrefixOf]
    · intro h
      have h' : (c == x && List.isPrefixOf [] xs) = true := h
      rw [Bool.and_eq_true] at h'
      rw [List.head?_cons, beq_iff_eq.mp h'.1]

theorem getLast_eq_iff_singleton_isSuffixOf {t : List Char} {c : Char} :
    t.getLast? = some c ↔ [c].isSuffixOf t = true := by
  rw [List.isSuffixOf_iff_suffix]
  constructor
  · intro h
    rcases List.getLast?_eq_some_iff.mp h with ⟨ys, rfl⟩
    exact ⟨ys, rfl⟩
  · rintro ⟨ys, rfl⟩
    rw [List.getLast?_concat]

theorem dropWhile_idem (p : Char → Bool) (l : List Char) :
    (l.dropWhile p).dropWhile p = l.dropWhile p := by
  cases h : l.dropWhile p with
  | nil => rfl
  | cons x t =>
    have hx := List.head?_dropWhile_not p l
    rw [h] at hx
    simp at hx
    rw [List.dropWhile_cons_of_neg]
    simp [hx]

theorem getLast?_dropWhile_ne_nil (p : Char → Bool) (xs : List Char)
    (h : xs.dropWhile p ≠ []) : (xs.dropWhile p).getLast? = xs.getLast? := by
  induction xs with
  | nil => simp at h
  | cons x t ih =>
    rw [List.dropWhile_cons]
    rw [List.dropWhile_cons] at h
    split <;> rename_i hp
    · rw [hp] at h
      simp only [if_true] at h
      rw [ih h]
      have htne : t ≠ [] := by
        intro he
        subst he
        simp at h
      cases t with
      | nil => exact absurd rfl htne
      | cons y ys => rfl
    · simp only [hp, if_false]

theorem trimify_head_not_space {s : List Char} {c : Char}
    (h : (trimify s).head? = some c) : (c == ' ') = false := by
  unfold trimify at h
  rw [List.head?_reverse] at h
  set Y := (s.dropWhile (fun c => c == ' ')).reverse.dropWhile (fun c => c == ' ') with hY
  have hYne : Y ≠ [] := by
    intro he
    rw [he] at h
    simp at h
  rw [getLast?_dropWhile_ne_nil _ _ hYne, List.getLast?_reverse] at h
  have hx := List.head?_dropWhile_not (fun c => c == ' ') s
  rw [h] at hx
  exact hx

theorem trimify_last_not_space {s : List Char} {c : Char}
    (h : (trimify s).getLast? = some c) : (c == ' ') = false := by
  unfold trimify at h
  rw [List.getLast?_reverse] at h
  have hx := List.head?_dropWhile_not (fun c => c == ' ')
    (s.dropWhile (fun c => c == ' ')).reverse
  rw [h] at hx
  exact hx

theorem trimify_eq_self {s : List Char}
    (h1 : ∀ c, s.head? = some c → (c == ' ') = false)
    (h2 : ∀ c, s.getLast? = some c → (c == ' ') = false) : trimify s = s := by
  have hfront : s.dropWhile (fun c => c == ' ') = s := by
    cases s with
    | nil => rfl
    | cons x t =>
      rw [List.dropWhile_cons_of_neg]
      simp [h1 x rfl]
  unfold trimify
  rw [hfront]
  have hback : s.reverse.dropWhile (fun c => c == ' ') = s.reverse := by
    cases hr : s.reverse with
    | nil => rfl
    | cons x t =>
      rw [List.dropWhile_cons_of_neg]
      have hlast : s.getLast? = some x := by
        rw [← List.head?_reverse, hr]
        rfl
      simp [h2 x hlast]
  rw [hback, List.reverse_reverse]

theorem trimify_idem (s : List Char) : trimify (trimify s) = trimify s :=
  trimify_eq_self (fun _ h => trimify_head_not_space h)
    (fun _ h => trimify_last_not_space h)

/-- C5 (amended): the code's argument extraction coincides, on every input
and keyword, with the amended description (contains-a-`(` instead of
begins-with, split on every comma instead of top-level commas). -/
theorem C5_extract_args_amended (self : List Char) (label : String) :
    extract_args self label = extract_args_amended_spec self label := by
  unfold extract_args extract_args_amended_spec
  by_cases hshape : (trimify self).head? = some '(' ∧ 2 ≤ (trimify self).length ∧
      (trimify self).getLast? = some ')'
  · have hshape' : ['('].isPrefixOf (trimify self) = true ∧
        [')'].isSuffixOf (trimify self) = true ∧ 2 ≤ (trimify self).length :=
      ⟨head_eq_iff_singleton_isPrefixOf.mp hshape.1,
        getLast_eq_iff_singleton_isSuffixOf.mp hshape.2.2, hshape.2.1⟩
    rw [if_pos hshape, if_pos hshape', trimify_idem]
  · have hshape' : ¬ (['('].isPrefixOf (trimify self) = true ∧
        [')'].isSuffixOf (trimify self) = true ∧ 2 ≤ (trimify self).length) := by
      intro h
      exact hshape ⟨head_eq_iff_singleton_isPrefixOf.mpr h.1, h.2.2,
        getLast_eq_iff_singleton_isSuffixOf.mpr h.2.1⟩
    rw [if_neg hshape, if_neg hshape']

/-! ### Length and character lemmas for the script grammar -/

theorem trimify_length_le (s : List Char) : (trimify s).length ≤ s.length := by
  unfold trimify
  rw [List.length_reverse]
  calc ((s.dropWhile (fun c => c == ' ')).reverse.dropWhile (fun c => c == ' ')).length
      ≤ (s.dropWhile (fun c => c == ' ')).reverse.length :=
        (List.dropWhile_sublist _).length_le
    _ = (s.dropWhile (fun c => c == ' ')).length := List.length_reverse _
    _ ≤ s.length := (List.dropWhile_sublist _).length_le

theorem trimify_subset {s : List Char} {c : Char} (h : c ∈ trimify s) : c ∈ s := by
  unfold trimify at h
  rw [List.mem_reverse] at h
  have h1 := @List.dropWhile_subset _ ((s.dropWhile (fun c => c == ' ')).reverse)
    (fun c => c == ' ') c h
  rw [List.mem_reverse] at h1
  exact List.dropWhile_subset _ h1

theorem mem_trimify_or_space {s : List Char} {c : Char} (h : c ∈ s) :
    c ∈ trimify s ∨ c = ' ' := by
  rw [← List.takeWhile_append_dropWhile (fun c => c == ' ') s,
    List.mem_append] at h
  rcases h with h | h
  · exact Or.inr (by simpa using List.mem_takeWhile_imp h)
  · set A := s.dropWhile (fun c => c == ' ') with hA
    have : c ∈ A.reverse := List.mem_reverse.mpr h
    rw [← List.takeWhile_append_dropWhile (fun c => c == ' ') A.reverse,
      List.mem_append] at this
    rcases this with h2 | h2
    · exact Or.inr (by simpa using List.mem_takeWhile_imp h2)
    · exact Or.inl (by rw [trimify, ← hA]; exact List.mem_reverse.mpr h2)

theorem splitOnChar_ne_nil (sep : Char) (s : List Char) : splitOnChar sep s ≠ [] := by
  cases s with
  | nil => simp [splitOnChar]
  | cons c rest =>
    rw [splitOnChar]
    split
    · simp
    · split <;> simp

theorem splitOnChar_mem_length_le {sep : Char} {s p : List Char}
    (h : p ∈ splitOnChar sep s) : p.length ≤ s.length := by
  induction s generalizing p with
  | nil =>
    rw [splitOnChar] at h
    simp at h
    simp [h]
  | cons c rest ih =>
    rw [splitOnChar] at h
    split at h
    · rcases List.mem_cons.mp h with rfl | h
      · simp
      · exact Nat.le_succ_of_le (ih h)
    · rcases hs : splitOnChar sep rest with _ | ⟨hd, tl⟩
      · exact absurd hs (splitOnChar_ne_nil sep rest)
      · rw [hs] at h
        rcases List.mem_cons.mp h with rfl | h
        · have : hd ∈ splitOnChar sep rest := by
            rw [hs]
            exact List.mem_cons_self hd tl
          have := ih this
          simp [List.length_cons]
          omega
        · have : p ∈ splitOnChar sep rest := by
            rw [hs]
            exact List.mem_cons_of_mem hd h
          exact Nat.le_succ_of_le (ih this)

theorem splitOnChar_mem_subset {sep : Char} {s p : List Char} {c : Char}
    (hp : p ∈ splitOnChar sep s) (hc : c ∈ p) : c ∈ s := by
  induction s generalizing p with
  | nil =>
    rw [splitOnChar] at hp
    simp at hp
    subst hp
    simp at hc
  | cons x rest ih =>
    rw [splitOnChar] at hp
    split at hp
    · rcases List.mem_cons.mp hp with rfl | hp
      · simp at hc
      · exact List.mem_cons_of_mem x (ih hp hc)
    · rcases hs : splitOnChar sep rest with _ | ⟨hd, tl⟩
      · exact absurd hs (splitOnChar_ne_nil sep rest)
      · rw [hs] at hp
        rcases List.mem_cons.mp hp with rfl | hp
        · rcases List.mem_cons.mp hc with rfl | hc
          · exact List.mem_cons_self c rest
          · refine List.mem_cons_of_mem x (ih ?_ hc)
            rw [hs]
            exact List.mem_cons_self hd tl
        · refine List.mem_cons_of_mem x (ih ?_ hc)
          rw [hs]
          exact List.mem_cons_of_mem hd hp

theorem splitOnChar_mem_chars {sep : Char} {s : List Char} {c : Char} (h : c ∈ s) :
    c = sep ∨ ∃ p ∈ splitOnChar sep s, c ∈ p := by
  induction s with
  | nil => simp at h
  | cons x rest ih =>
    rw [splitOnChar]
    rcases List.mem_cons.mp h with rfl | h
    · by_cases hx : (c == sep) = true
      · exact Or.inl (by simpa using hx)
      · right
        rw [if_neg hx]
        rcases hs : splitOnChar sep rest with _ | ⟨hd, tl⟩
        · exact absurd hs (splitOnChar_ne_nil sep rest)
        · exact ⟨c :: hd, List.mem_cons_self _ _, List.mem_cons_self c hd⟩
    · rcases ih h with rfl | ⟨p, hp, hcp⟩
      · exact Or.inl rfl
      · right
        split
        · exact ⟨p, List.mem_cons_of_mem _ hp, hcp⟩
        · rcases hs : splitOnChar sep rest with _ | ⟨hd, tl⟩
          · exact absurd hs (splitOnChar_ne_nil sep rest)
          · rw [hs] at hp
            rcases List.mem_cons.mp hp with rfl | hp
            · exact ⟨x :: p, List.mem_cons_self _ _, List.mem_cons_of_mem x hcp⟩
            · exact ⟨p, List.mem_cons_of_mem _ hp, hcp⟩

theorem extract_args_len {xs : List Char} {label : String} {args : List (List Char)}
    (h : extract_args xs label = .ok args) : ∀ a ∈ args, a.length + 2 ≤ xs.length := by
  intro a ha
  unfold extract_args at h
  split at h
  · rename_i hshape
    obtain ⟨hhead, hlen2, hlast⟩ := hshape
    have hraw : (((trimify xs).drop 1).dropLast).length + 2 ≤ xs.length := by
      have h1 := trimify_length_le xs
      have h2 : (((trimify xs).drop 1).dropLast).length = (trimify xs).length - 2 := by
        rw [List.length_dropLast, List.length_drop]
        omega
      omega
    split at h
    · have ha' : a = trimify (trimify (((trimify xs).drop 1).dropLast)) := by
        have := Except.ok.inj h
        rw [← this] at ha
        simpa using ha
      subst ha'
      have := trimify_length_le (trimify (((trimify xs).drop 1).dropLast))
      have := trimify_length_le (((trimify xs).drop 1).dropLast)
      omega
    · have ha' : a ∈ (splitOnChar ',' (((trimify xs).drop 1).dropLast)).map trimify := by
        have := Except.ok.inj h
        rw [← this] at ha
        exact ha
      rcases List.mem_map.mp ha' with ⟨p, hp, rfl⟩
      have h1 := splitOnChar_mem_length_le hp
      have h2 := trimify_length_le p
      omega
  · exact absurd h (by simp)

theorem extract_args_sub {xs : List Char} {label : String} {args : List (List Char)}
    (h : extract_args xs label = .ok args) : ∀ a ∈ args, ∀ c ∈ a, c ∈ xs := by
  intro a ha c hc
  have hrawsub : ∀ d : Char, d ∈ ((trimify xs).drop 1).dropLast → d ∈ xs := by
    intro d hd
    have h1 : d ∈ (trimify xs).drop 1 := List.dropLast_subset _ hd
    exact trimify_subset (List.drop_subset _ _ h1)
  unfold extract_args at h
  split at h
  · split at h
    · have ha' : a = trimify (trimify (((trimify xs).drop 1).dropLast)) := by
        have := Except.ok.inj h
        rw [← this] at ha
        simpa using ha
      subst ha'
      exact hrawsub c (trimify_subset (trimify_subset hc))
    · have ha' : a ∈ (splitOnChar ',' (((trimify xs).drop 1).dropLast)).map trimify := by
        have := Except.ok.inj h
        rw [← this] at ha
        exact ha
      rcases List.mem_map.mp ha' with ⟨p, hp, rfl⟩
      exact hrawsub c (splitOnChar_mem_subset hp (trimify_subset hc))
  · exact absurd h (by simp)

theorem divide_fst_no_hash (input : List Char) :
    '#' ∉ (divide_script_and_checksum input).1 := by
  intro h
  unfold divide_script_and_checksum at h
  have : ('#' ∈ input.takeWhile (fun c => !(c == '#'))) := by
    rcases hd : input.dropWhile (fun c => !(c == '#')) with _ | ⟨x, rest⟩ <;>
      rw [hd] at h <;> exact h
  have := List.mem_takeWhile_imp this
  simp at this

theorem divide_fst_length_le (input : List Char) :
    (divide_script_and_checksum input).1.length ≤ input.length := by
  unfold divide_script_and_checksum
  rcases hd : input.dropWhile (fun c => !(c == '#')) with _ | ⟨x, rest⟩ <;>
    exact (List.takeWhile_sublist _).length_le

theorem divide_fst_subset (input : List Char) :
    ∀ c ∈ (divide_script_and_checksum input).1, c ∈ input := by
  intro c hc
  unfold divide_script_and_checksum at hc
  rcases hd : input.dropWhile (fun c => !(c == '#')) with _ | ⟨x, rest⟩ <;>
    rw [hd] at hc <;> exact List.takeWhile_subset _ hc

theorem divide_no_hash_eq {input : List Char} (h : '#' ∉ input) :
    divide_script_and_checksum input = (input, none) := by
  unfold divide_script_and_checksum
  have htake : input.takeWhile (fun c => !(c == '#')) = input := by
    apply List.takeWhile_eq_self_iff.mpr
    intro a ha
    simp
    intro hEq
    exact h (hEq ▸ ha)
  have hdrop : input.dropWhile (fun c => !(c == '#')) = [] := by
    have := congrArg List.length (List.takeWhile_append_dropWhile
      (fun c => !(c == '#')) input)
    rw [List.length_append, htake] at this
    have : (input.dropWhile (fun c => !(c == '#'))).length = 0 := by omega
    exact List.length_eq_zero.mp this
  rw [hdrop, htake]

/-! ### Fuel adequacy of the script-expression recursion -/

theorem script_match_hof_congr {r₁ r₂ : List Char → Option (Except ParsingError (List Char))}
    {E : ExtEngine} {t : List Char}
    (h : ∀ arg, arg.length + 4 ≤ t.length → r₁ arg = r₂ arg) :
    script_match_hof r₁ E t = script_match_hof r₂ E t := by
  unfold script_match_hof
  split
  · rfl
  split
  · rfl
  split
  · rfl
  split
  · rfl
  split
  · rcases hx : extract_args (t.drop 2) "sh" with e | args
    · rfl
    · match args with
      | [] => rfl
      | [arg] =>
        have hb : arg.length + 4 ≤ t.length := by
          have h1 := extract_args_len hx arg (List.mem_cons_self arg [])
          have h2 : (t.drop 2).length = t.length - 2 := List.length_drop 2 t
          have h3 : arg.length + 2 ≤ t.length - 2 := h2 ▸ h1
          omega
        simp only [h arg hb]
      | _ :: _ :: _ => rfl
  · rfl

theorem script_expression_go_spec (E : ExtEngine) :
    ∀ n input config fuel, input.length ≤ n → input.length < fuel →
      script_expression_go E fuel input config = script_expression E input config := by
  intro n
  induction n using Nat.strong_induction_on with
  | _ n IH =>
    intro input config fuel hlen hfuel
    match fuel, hfuel with
    | f + 1, hfuel =>
      show script_expression_go E (f + 1) input config =
        script_expression_go E (input.length + 1) input config
      rw [script_expression_go, script_expression_go]
      have hm : script_match_hof
          (fun arg => script_expression_go E f arg ScriptExpressionConfig.default) E
          (trimify (divide_script_and_checksum input).1) =
        script_match_hof
          (fun arg => script_expression_go E input.length arg ScriptExpressionConfig.default) E
          (trimify (divide_script_and_checksum input).1) := by
        apply script_match_hof_congr
        intro arg hb
        have htlen : (trimify (divide_script_and_checksum input).1).length ≤ input.length := by
          have := trimify_length_le (divide_script_and_checksum input).1
          have := divide_fst_length_le input
          omega
        have hargn : arg.length < n ∨ (arg.length < input.length ∧ input.length ≤ n) := by
          right
          constructor <;> omega
        have harg_lt : arg.length < input.length := by omega
        have h1 : script_expression_go E f arg ScriptExpressionConfig.default =
            script_expression E arg ScriptExpressionConfig.default := by
          rcases Nat.lt_or_ge arg.length n with hc | hc
          · exact IH arg.length (by omega) arg ScriptExpressionConfig.default f (le_refl _)
              (by omega)
          · omega
        have h2 : script_expression_go E input.length arg ScriptExpressionConfig.default =
            script_expression E arg ScriptExpressionConfig.default := by
          exact IH arg.length (by omega) arg ScriptExpressionConfig.default input.length
            (le_refl _) (by omega)
        rw [h1, h2]
      rw [hm]

theorem script_expression_decomp (E : ExtEngine) (input : List Char)
    (config : ScriptExpressionConfig) :
    script_expression E input config =
      match script_match E (trimify (divide_script_and_checksum input).1) with
      | none => none
      | some (.error e) => some (.error e)
      | some (.ok _) =>
        script_operation (divide_script_and_checksum input).1
          (divide_script_and_checksum input).2 config := by
  conv_lhs => rw [script_expression, script_expression_go]
  have hm : script_match_hof
      (fun arg => script_expression_go E input.length arg ScriptExpressionConfig.default) E
      (trimify (divide_script_and_checksum input).1) =
    script_match E (trimify (divide_script_and_checksum input).1) := by
    unfold script_match
    apply script_match_hof_congr
    intro arg hb
    have htlen : (trimify (divide_script_and_checksum input).1).length ≤ input.length := by
      have := trimify_length_le (divide_script_and_checksum input).1
      have := divide_fst_length_le input
      omega
    exact script_expression_go_spec E arg.length arg ScriptExpressionConfig.default
      input.length (le_refl _) (by omega)
  rw [hm]


/-! ### The multi and sh arms (claims C6 and C7) -/

theorem validateKeys_ok {E : ExtEngine} {keys : List (List Char)}
    (h : ∀ k ∈ keys, ∃ r, validate_key_expression E k = .ok r) :
    validateKeys E keys = .ok () := by
  induction keys with
  | nil => rfl
  | cons k rest ih =>
    rcases h k (List.mem_cons_self k rest) with ⟨r, hr⟩
    rw [validateKeys, hr]
    exact ih (fun x hx => h x (List.mem_cons_of_mem _ hx))

theorem script_match_multi {E : ExtEngine} {rest kstr : List Char}
    {keys : List (List Char)}
    (hargs : extract_args rest "multi" = .ok (kstr :: keys)) :
    script_match E ('m' :: 'u' :: 'l' :: 't' :: 'i' :: rest) =
      match parse_i32 kstr with
      | .error e => some (.error e)
      | .ok v =>
        if v < 0 then some (.error ⟨"arg count indicator cannot be negative"⟩)
        else if v.toNat ≤ keys.length then
          match validateKeys E keys with
          | .error e => some (.error e)
          | .ok _ => some (.ok ())
        else
          some (.error ⟨"arg count indicator cannot be higher than actual args count"⟩) := by
  unfold script_match script_match_hof
  rw [if_neg (by simp), if_pos (by simp)]
  have hdrop : ('m' :: 'u' :: 'l' :: 't' :: 'i' :: rest).drop 5 = rest := rfl
  rw [hdrop, hargs]

theorem script_operation_plain {script : List Char} {config : ScriptExpressionConfig}
    (hcompute : config.compute_checksum = false)
    (hverify : config.verify_checksum = false) :
    script_operation script none config = some (.ok script) := by
  unfold script_operation
  rw [hcompute, hverify]
  simp

/-- C6. For a `multi(...)` script (no checksum tail, compute and verify both
off) whose arguments extract successfully: a negative first argument yields
the distinct negative-count error; a non-negative count exceeding the number
of following keys yields the distinct count-exceeds error; and a count of at
most the number of keys with all keys validating (possibly zero keys)
succeeds, returning the input unchanged. -/
theorem C6_multi_arm (E : ExtEngine) (input rest kstr : List Char)
    (keys : List (List Char)) (config : ScriptExpressionConfig)
    (hhash : '#' ∉ input)
    (hkw : trimify input = 'm' :: 'u' :: 'l' :: 't' :: 'i' :: rest)
    (hargs : extract_args rest "multi" = .ok (kstr :: keys))
    (hcompute : config.compute_checksum = false)
    (hverify : config.verify_checksum = false) :
    (∀ v : Int, parse_i32 kstr = .ok v → v < 0 →
      script_expression E input config =
        some (.error ⟨"arg count indicator cannot be negative"⟩)) ∧
    (∀ v : Int, parse_i32 kstr = .ok v → 0 ≤ v → (keys.length : Int) < v →
      script_expression E input config =
        some (.error ⟨"arg count indicator cannot be higher than actual args count"⟩)) ∧
    (∀ v : Int, parse_i32 kstr = .ok v → 0 ≤ v → v ≤ (keys.length : Int) →
      (∀ k ∈ keys, ∃ r, validate_key_expression E k = .ok r) →
      script_expression E input config = some (.ok input)) := by
  have hdiv := divide_no_hash_eq hhash
  have hbase : script_expression E input config =
      match script_match E (trimify input) with
      | none => none
      | some (.error e) => some (.error e)
      | some (.ok _) => script_operation input none config := by
    rw [script_expression_decomp, hdiv]
  rw [hkw, script_match_multi hargs] at hbase
  refine ⟨?_, ?_, ?_⟩
  · intro v hv hneg
    rw [hv] at hbase
    rw [hbase]
    simp [hneg]
  · intro v hv hpos hgt
    rw [hv] at hbase
    rw [hbase]
    have h1 : ¬ v < 0 := by omega
    have h2 : ¬ v.toNat ≤ keys.length := by omega
    simp [h1, h2]
  · intro v hv hpos hle hkeys
    rw [hv] at hbase
    rw [hbase]
    have h1 : ¬ v < 0 := by omega
    have h2 : v.toNat ≤ keys.length := by omega
    simp [h1, h2, validateKeys_ok hkeys, script_operation_plain hcompute hverify]

/-- Witness for C6: `multi(1, <valid hex key>)` succeeds, returning the
input unchanged. -/
theorem C6_multi_arm_witness :
    script_expression failEngine
      "multi(1, 0260b2003c386519fc9eadf2b5cf124dd8eea4c4e68d5e154050a9346ea98ce600)".toList
      ⟨false, false⟩ =
      some (.ok
        "multi(1, 0260b2003c386519fc9eadf2b5cf124dd8eea4c4e68d5e154050a9346ea98ce600)".toList) := by
  refine (C6_multi_arm failEngine _
    "(1, 0260b2003c386519fc9eadf2b5cf124dd8eea4c4e68d5e154050a9346ea98ce600)".toList
    "1".toList
    ["0260b2003c386519fc9eadf2b5cf124dd8eea4c4e68d5e154050a9346ea98ce600".toList]
    ⟨false, false⟩ (by decide) (by decide) (by decide) rfl rfl).2.2 1 (by decide)
    (by decide) (by decide) ?_
  intro k hk
  rw [List.mem_singleton] at hk
  subst hk
  exact ⟨"0260b2003c386519fc9eadf2b5cf124dd8eea4c4e68d5e154050a9346ea98ce600".toList, by decide⟩

theorem script_match_sh {E : ExtEngine} {rest arg : List Char}
    (hargs : extract_args rest "sh" = .ok [arg]) :
    script_match E ('s' :: 'h' :: rest) =
      if "pkh".toList.isPrefixOf arg || "pk".toList.isPrefixOf arg ||
          "multi".toList.isPrefixOf arg then
        match script_expression E arg ScriptExpressionConfig.default with
        | none => none
        | some (.error e) => some (.error e)
        | some (.ok _) => some (.ok ())
      else
        some (.error ⟨script_sh_unsupported_arg_err arg⟩) := by
  unfold script_match script_match_hof
  rw [if_neg (by simp), if_neg (by simp), if_neg (by simp), if_neg (by simp),
    if_pos (by simp)]
  have hdrop : ('s' :: 'h' :: rest).drop 2 = rest := rfl
  rw [hdrop, hargs]

/-- C7. For an `sh(...)` script with exactly one extracted argument: an
argument whose leading keyword (literal prefix, as the grammar checks
keywords) is none of pk/pkh/multi yields the distinct unsupported-sh-argument
error naming the argument; an argument with such a prefix is recursively
validated as a full script expression with the default configuration, whose
error propagates unchanged and whose success hands over to the checksum
policy. -/
theorem C7_sh_arm (E : ExtEngine) (input rest arg : List Char)
    (config : ScriptExpressionConfig)
    (hkw : trimify (divide_script_and_checksum input).1 = 's' :: 'h' :: rest)
    (hargs : extract_args rest "sh" = .ok [arg]) :
    (("pkh".toList.isPrefixOf arg || "pk".toList.isPrefixOf arg ||
        "multi".toList.isPrefixOf arg) = false →
      script_expression E input config =
        some (.error ⟨script_sh_unsupported_arg_err arg⟩)) ∧
    (∀ e, ("pkh".toList.isPrefixOf arg || "pk".toList.isPrefixOf arg ||
        "multi".toList.isPrefixOf arg) = true →
      script_expression E arg ScriptExpressionConfig.default = some (.error e) →
      script_expression E input config = some (.error e)) ∧
    (∀ out, ("pkh".toList.isPrefixOf arg || "pk".toList.isPrefixOf arg ||
        "multi".toList.isPrefixOf arg) = true →
      script_expression E arg ScriptExpressionConfig.default = some (.ok out) →
      script_expression E input config =
        script_operation (divide_script_and_checksum input).1
          (divide_script_and_checksum input).2 config) := by
  have hbase := script_expression_decomp E input config
  rw [hkw, script_match_sh hargs] at hbase
  refine ⟨?_, ?_, ?_⟩
  · intro hcond
    rw [hbase, hcond]
    simp
  · intro e hcond hrec
    rw [hbase, hcond, hrec]
    simp
  · intro out hcond hrec
    rw [hbase, hcond, hrec]
    simp

/-- Witness for C7: `sh(raw(deadbeef))` fails naming `raw(deadbeef)` as
unsupported, while `sh(pkh(<valid hex key>))` succeeds. -/
theorem C7_sh_arm_witness :
    script_expression failEngine "sh(raw(deadbeef))".toList ⟨false, false⟩ =
      some (.error ⟨script_sh_unsupported_arg_err "raw(deadbeef)".toList⟩) ∧
    script_expression failEngine
      "sh(pkh(0260b2003c386519fc9eadf2b5cf124dd8eea4c4e68d5e154050a9346ea98ce600))".toList
      ⟨false, false⟩ =
      some (.ok
        "sh(pkh(0260b2003c386519fc9eadf2b5cf124dd8eea4c4e68d5e154050a9346ea98ce600))".toList) := by
  constructor
  · exact (C7_sh_arm failEngine "sh(raw(deadbeef))".toList "(raw(deadbeef))".toList
      "raw(deadbeef)".toList ⟨false, false⟩ (by decide) (by decide)).1 (by decide)
  · refine Eq.trans ((C7_sh_arm failEngine
      "sh(pkh(0260b2003c386519fc9eadf2b5cf124dd8eea4c4e68d5e154050a9346ea98ce600))".toList
      "(pkh(0260b2003c386519fc9eadf2b5cf124dd8eea4c4e68d5e154050a9346ea98ce600))".toList
      "pkh(0260b2003c386519fc9eadf2b5cf124dd8eea4c4e68d5e154050a9346ea98ce600)".toList
      ⟨false, false⟩ (by decide) (by decide)).2.2
      "pkh(0260b2003c386519fc9eadf2b5cf124dd8eea4c4e68d5e154050a9346ea98ce600)".toList
      (by decide) (by decide)) (by decide)


/-! ### WIF validation (claim C9) -/

theorem validate_wif_bytes_split (payload tail : List Nat)
    (hplen : payload.length = 33 ∨ payload.length = 34) (htlen : tail.length = 4)
    (hhead : payload.head? = some 0x80) :
    validate_wif_bytes (payload ++ tail) =
      if tail ≠ (sha256 (sha256 payload)).take 4 then
        .error ⟨"WIF checksum does not match"⟩
      else .ok () := by
  have hlen : (payload ++ tail).length = payload.length + 4 := by
    rw [List.length_append, htlen]
  have hlen4 : (payload ++ tail).length - 4 = payload.length := by omega
  have htake : (payload ++ tail).take ((payload ++ tail).length - 4) = payload := by
    rw [hlen4]
    exact List.take_left payload tail
  have hdrop : (payload ++ tail).drop ((payload ++ tail).length - 4) = tail := by
    rw [hlen4]
    exact List.drop_left payload tail
  have hheadapp : (payload ++ tail).head? = some 0x80 := by
    cases payload with
    | nil => simp at hplen
    | cons x xs =>
      rw [List.cons_append, List.head?_cons]
      rw [List.head?_cons] at hhead
      exact hhead
  unfold validate_wif_bytes
  rw [htake, hdrop, hlen]
  rw [if_neg (by rcases hplen with h | h <;> simp [h]), if_neg (by rw [hheadapp]; simp)]

/-- C9. The WIF key `5KYZdUEo39z3FPrtuX2QbbwGnNP5zTd7yyr2SC1j299sBCnWjss`
validates; and for every base58-decoded payload passing the structural checks
(37 or 38 bytes, first byte 0x80) whose 4-byte tail equals the first 4 bytes
of the double SHA-256 of the preceding bytes, validation succeeds, while
altering any byte of the 4-byte tail produces exactly the checksum-mismatch
error, whose message differs from every structural error message. -/
theorem C9_wif_validation (payload tail : List Nat)
    (hplen : payload.length = 33 ∨ payload.length = 34) (htlen : tail.length = 4)
    (hhead : payload.head? = some 0x80)
    (hck : tail = (sha256 (sha256 payload)).take 4) :
    validate_wif_private_key
      "5KYZdUEo39z3FPrtuX2QbbwGnNP5zTd7yyr2SC1j299sBCnWjss".toList = .ok () ∧
    validate_wif_bytes (payload ++ tail) = .ok () ∧
    (∀ i, i < 4 → ∀ b, b ≠ tail.getD i 0 →
      validate_wif_bytes (payload ++ tail.set i b) =
        .error ⟨"WIF checksum does not match"⟩) ∧
    ((ParsingError.mk "WIF checksum does not match" ≠ ParsingError.mk "Invalid WIF format") ∧
     (ParsingError.mk "WIF checksum does not match" ≠ ParsingError.mk "WIF must start with 0x80") ∧
     (ParsingError.mk "WIF checksum does not match" ≠
       ParsingError.mk "Could not convert WIF from base58")) := by
  refine ⟨by decide, ?_, ?_, by decide, by decide, by decide⟩
  · rw [validate_wif_bytes_split payload tail hplen htlen hhead, if_neg (by simp [hck])]
  · intro i hi b hb
    have hi' : i < tail.length := by omega
    have hne : tail.set i b ≠ (sha256 (sha256 payload)).take 4 := by
      rw [← hck]
      intro hEq
      have e1 := congrArg (fun l => l[i]?) hEq
      simp only [List.getElem?_set_self hi'] at e1
      rw [List.getElem?_eq_getElem hi'] at e1
      have h2 : tail.getD i 0 = tail.get ⟨i, hi'⟩ := by
        rw [List.getD_eq_getElem?_getD, List.getElem?_eq_getElem hi']
        rfl
      have e2 : b = tail.get ⟨i, hi'⟩ := Option.some.inj e1
      exact hb (e2.trans h2.symm)
    rw [validate_wif_bytes_split payload (tail.set i b) hplen (by simp [htlen]) hhead,
      if_pos hne]

/-- Witness for C9 at the decoded bytes of the spec's example WIF key,
altering the first checksum byte to 0. -/
theorem C9_wif_validation_witness :
    validate_wif_private_key
      "5KYZdUEo39z3FPrtuX2QbbwGnNP5zTd7yyr2SC1j299sBCnWjss".toList = .ok () ∧
    validate_wif_bytes
      ([0x80, 0xe3, 0xb0, 0xc4, 0x42, 0x98, 0xfc, 0x1c, 0x14, 0x9a, 0xfb, 0xf4, 0xc8, 0x99,
        0x6f, 0xb9, 0x24, 0x27, 0xae, 0x41, 0xe4, 0x64, 0x9b, 0x93, 0x4c, 0xa4, 0x95, 0x99,
        0x1b, 0x78, 0x52, 0xb8, 0x55] ++ [0x5c, 0x5b, 0xbb, 0x26]) = .ok () ∧
    validate_wif_bytes
      ([0x80, 0xe3, 0xb0, 0xc4, 0x42, 0x98, 0xfc, 0x1c, 0x14, 0x9a, 0xfb, 0xf4, 0xc8, 0x99,
        0x6f, 0xb9, 0x24, 0x27, 0xae, 0x41, 0xe4, 0x64, 0x9b, 0x93, 0x4c, 0xa4, 0x95, 0x99,
        0x1b, 0x78, 0x52, 0xb8, 0x55] ++ ([0x5c, 0x5b, 0xbb, 0x26].set 0 0)) =
      .error ⟨"WIF checksum does not match"⟩ := by
  have h := C9_wif_validation
    [0x80, 0xe3, 0xb0, 0xc4, 0x42, 0x98, 0xfc, 0x1c, 0x14, 0x9a, 0xfb, 0xf4, 0xc8, 0x99,
      0x6f, 0xb9, 0x24, 0x27, 0xae, 0x41, 0xe4, 0x64, 0x9b, 0x93, 0x4c, 0xa4, 0x95, 0x99,
      0x1b, 0x78, 0x52, 0xb8, 0x55] [0x5c, 0x5b, 0xbb, 0x26] (by decide) (by decide)
    (by decide) (by decide)
  exact ⟨h.1, h.2.1, h.2.2.1 0 (by decide) 0 (by decide)⟩


/-! ### Character-set closure of the script grammar (claim C10) -/

theorem char_toNat_lt_mem_INPUT : ∀ n < 127,
    ((48 ≤ n ∧ n ≤ 57) ∨ (97 ≤ n ∧ n ≤ 102) ∨ (65 ≤ n ∧ n ≤ 70)) →
      Char.ofNat n ∈ INPUT_CHARSET := by decide

theorem hexdigit_mem_INPUT {c : Char} (h : isAsciiHexdigitChar c = true) :
    c ∈ INPUT_CHARSET := by
  have hofnat : Char.ofNat c.toNat = c := Char.ofNat_toNat c
  rw [← hofnat]
  unfold isAsciiHexdigitChar at h
  simp only [Bool.or_eq_true, Bool.and_eq_true, decide_eq_true_eq] at h
  exact char_toNat_lt_mem_INPUT c.toNat (by omega) (by omega)

theorem digit_mem_INPUT {c : Char} (h48 : 48 ≤ c.toNat) (h57 : c.toNat ≤ 57) :
    c ∈ INPUT_CHARSET := by
  refine hexdigit_mem_INPUT ?_
  unfold isAsciiHexdigitChar
  simp only [Bool.or_eq_true, Bool.and_eq_true, decide_eq_true_eq]
  omega

theorem allowed_mem_input : ∀ c ∈ ALLOWED_CHAR_SET, c ∈ INPUT_CHARSET := by decide

theorem mem_take_drop_cases {t : List Char} {c : Char} (k : Nat) (h : c ∈ t) :
    c ∈ t.take k ∨ c ∈ t.drop k := by
  rw [← List.take_append_drop k t] at h
  exact List.mem_append.mp h

theorem assert_hex_chars {arg out : List Char} {label : String}
    (h : assert_hexadecimal_format arg label = .ok out) :
    ∀ c ∈ arg, c ∈ INPUT_CHARSET := by
  intro c hc
  by_cases hsp : c = ' '
  · subst hsp; decide
  · have h' : (if !(!(arg.filter (fun c => !(c == ' '))).isEmpty &&
          ((arg.filter (fun c => !(c == ' '))).length % 2 == 0) &&
          (arg.filter (fun c => !(c == ' '))).all isAsciiHexdigitChar) then
        (.error ⟨label ++ " " ++ sq ++ String.mk arg ++ sq ++
          " is not a valid hexadecimal string!"⟩ : Except ParsingError (List Char))
      else .ok arg) = .ok out := h
    split at h'
    · exact absurd h' (by simp)
    · rename_i hcond
      cases hE : (arg.filter (fun c => !(c == ' '))).all isAsciiHexdigitChar
      · rw [hE] at hcond
        simp at hcond
      · have hmemf : c ∈ arg.filter (fun c => !(c == ' ')) :=
          List.mem_filter.mpr ⟨hc, by simp [hsp]⟩
        exact hexdigit_mem_INPUT (List.all_eq_true.mp hE c hmemf)

theorem validate_key_expression_chars {E : ExtEngine} {a r : List Char}
    (h : validate_key_expression E a = .ok r) : ∀ c ∈ a, c ∈ INPUT_CHARSET := by
  intro c hc
  unfold validate_key_expression at h
  split at h
  · exact absurd h (by simp)
  · split at h
    · exact absurd h (by simp)
    · rename_i hany
      have hmem : ALLOWED_CHAR_SET.contains c = true := by
        cases hcb : ALLOWED_CHAR_SET.contains c
        · have hnm : c ∉ ALLOWED_CHAR_SET := by simpa using hcb
          exact absurd (List.any_eq_true.mpr ⟨c, hc, by simpa using hnm⟩) hany
        · rfl
      have hmem' : c ∈ ALLOWED_CHAR_SET := by simpa using hmem
      exact allowed_mem_input c hmem'

theorem parse_i32_chars {s : List Char} {v : Int} (h : parse_i32 s = .ok v) :
    ∀ c ∈ s, c ∈ INPUT_CHARSET := by
  intro c hc
  cases s with
  | nil => simp at hc
  | cons c0 rest =>
    rw [parse_i32] at h
    by_cases hsgn : c0 = '+' ∨ c0 = '-'
    · rw [if_pos hsgn] at h
      split at h
      · exact absurd h (by simp)
      · split at h
        · exact absurd h (by simp)
        · rename_i hall
          rw [not_not] at hall
          rcases List.mem_cons.mp hc with rfl | hcr
          · rcases hsgn with rfl | rfl
            · decide
            · decide
          · have hd := List.all_eq_true.mp hall c hcr
            simp only [Bool.and_eq_true, decide_eq_true_eq] at hd
            exact digit_mem_INPUT hd.1 hd.2
    · rw [if_neg hsgn] at h
      split at h
      · exact absurd h (by simp)
      · split at h
        · exact absurd h (by simp)
        · rename_i hall
          rw [not_not] at hall
          have hd := List.all_eq_true.mp hall c hc
          simp only [Bool.and_eq_true, decide_eq_true_eq] at hd
          exact digit_mem_INPUT hd.1 hd.2

theorem validateKeys_ok_mem {E : ExtEngine} {keys : List (List Char)} {u : Unit}
    (h : validateKeys E keys = .ok u) :
    ∀ k ∈ keys, ∃ r, validate_key_expression E k = .ok r := by
  induction keys with
  | nil => intro k hk; simp at hk
  | cons a rest ih =>
    intro k hk
    rw [validateKeys] at h
    rcases hv : validate_key_expression E a with e | r
    · rw [hv] at h
      exact absurd h (by simp)
    · rw [hv] at h
      rcases List.mem_cons.mp hk with rfl | hk
      · exact ⟨r, hv⟩
      · exact ih h k hk

theorem extract_args_chars {xs : List Char} {label : String} {args : List (List Char)}
    (h : extract_args xs label = .ok args)
    (hargs : ∀ a ∈ args, ∀ c ∈ a, c ∈ INPUT_CHARSET) :
    ∀ c ∈ xs, c ∈ INPUT_CHARSET := by
  intro c hc
  rcases mem_trimify_or_space hc with hct | hcs
  case inr => subst hcs; decide
  case inl =>
  unfold extract_args at h
  split at h
  case isFalse => exact absurd h (by simp)
  case isTrue hshape =>
  obtain ⟨hhead, hlen2, hlast⟩ := hshape
  obtain ⟨zs, hzs⟩ : ∃ zs, trimify xs = '(' :: zs := by
    rcases ht : trimify xs with _ | ⟨c0, zs⟩
    · rw [ht] at hhead
      simp at hhead
    · rw [ht] at hhead
      simp at hhead
      exact ⟨zs, by rw [hhead]⟩
  have hne_zs : zs ≠ [] := by
    intro hz
    rw [hzs, hz] at hlen2
    exact absurd hlen2 (by decide)
  have hlast' : zs.getLast? = some ')' := by
    rcases hz : zs with _ | ⟨z0, zs'⟩
    · exact absurd hz hne_zs
    · rw [hzs, hz, List.getLast?_cons_cons] at hlast
      exact hlast
  have hlastEq : zs.getLast hne_zs = ')' := by
    have h1 : zs.getLast? = some (zs.getLast hne_zs) := List.getLast?_eq_getLast zs hne_zs
    exact Option.some.inj (h1.symm.trans hlast')
  have hys : zs = zs.dropLast ++ [')'] := by
    conv_lhs => rw [← List.dropLast_append_getLast hne_zs]
    rw [hlastEq]
  rw [hzs] at h hct
  simp only [List.drop_one, List.tail_cons] at h
  rcases List.mem_cons.mp hct with rfl | hczs
  · decide
  · rw [hys, List.mem_append] at hczs
    rcases hczs with hcraw | hcp
    · split at h
      · have hX : trimify (trimify zs.dropLast) ∈ args := by
          rw [← Except.ok.inj h]
          exact List.mem_cons_self _ _
        rcases mem_trimify_or_space hcraw with h4 | h4
        · rcases mem_trimify_or_space h4 with h5 | h5
          · exact hargs _ hX c h5
          · subst h5; decide
        · subst h4; decide
      · rcases @splitOnChar_mem_chars ',' zs.dropLast c hcraw with rfl | ⟨p, hp, hcpp⟩
        · decide
        · rcases mem_trimify_or_space hcpp with h4 | h4
          · refine hargs (trimify p) ?_ c h4
            rw [← Except.ok.inj h]
            exact List.mem_map.mpr ⟨p, hp, rfl⟩
          · subst h4; decide
    · simp at hcp
      subst hcp
      decide

theorem checksum_create_of_mem {s : List Char} (h : ∀ c ∈ s, c ∈ INPUT_CHARSET) :
    ∃ cs, checksum_create s = some cs := by
  have hall : ∀ c ∈ s, (charIndex INPUT_CHARSET c).isSome :=
    fun c hc => charIndex_isSome_iff.mpr (h c hc)
  rcases charIndices_of_all hall with ⟨idxs, hidxs, _⟩
  have he : ∃ syms, checksum_expand s = some syms := by
    rw [checksum_expand, hidxs]
    exact ⟨_, rfl⟩
  rcases he with ⟨syms, hsy⟩
  rw [checksum_create, hsy]
  exact ⟨_, rfl⟩

theorem script_operation_ne_none {script : List Char} {checksum : Option (List Char)}
    {config : ScriptExpressionConfig}
    (h : config.compute_checksum = true → ∃ cs, checksum_create script = some cs) :
    script_operation script checksum config ≠ none := by
  unfold script_operation
  by_cases hcc : config.compute_checksum = true
  · rcases h hcc with ⟨cs, hcs⟩
    rw [if_pos hcc, hcs]
    simp
  · rw [if_neg hcc]
    split
    · split
      · split
        · split <;> simp
        · simp
      · simp
    · split <;> simp

theorem script_match_safe (E : ExtEngine) :
    ∀ n t, t.length ≤ n → '#' ∉ t →
      script_match E t ≠ none ∧
      (script_match E t = some (.ok ()) → ∀ c ∈ t, c ∈ INPUT_CHARSET) := by
  intro n
  induction n using Nat.strong_induction_on with
  | _ n IH =>
    intro t hlen hhash
    rw [script_match, script_match_hof]
    by_cases hraw : t.take 3 = "raw".toList
    · rw [if_pos hraw]
      rcases hx : extract_args (t.drop 3) "raw" with e | args
      · exact ⟨by simp, by simp⟩
      · match args with
        | [] => exact ⟨by simp, by simp⟩
        | a :: b :: rest => exact ⟨by simp, by simp⟩
        | [arg] =>
          rcases hh : assert_hexadecimal_format arg "raw function argument" with e | out
          · simp [hh]
          · refine ⟨by simp [hh], fun _ c hc => ?_⟩
            rcases mem_take_drop_cases 3 hc with h1 | h2
            · rw [hraw] at h1
              exact (by decide : ∀ x ∈ "raw".toList, x ∈ INPUT_CHARSET) c h1
            · refine extract_args_chars hx ?_ c h2
              intro a ha c' hc'
              rw [List.mem_singleton] at ha
              subst ha
              exact assert_hex_chars hh c' hc'
    · rw [if_neg hraw]
      by_cases hmulti : t.take 5 = "multi".toList
      · rw [if_pos hmulti]
        rcases hx : extract_args (t.drop 5) "multi" with e | args
        · exact ⟨by simp, by simp⟩
        · match args with
          | [] => exact ⟨by simp, by simp⟩
          | kstr :: keys =>
            rcases hp : parse_i32 kstr with e | v
            · simp [hp]
            · simp only [hp]
              by_cases hneg : v < 0
              · rw [if_pos hneg]
                exact ⟨by simp, by simp⟩
              · rw [if_neg hneg]
                by_cases hle : v.toNat ≤ keys.length
                · rw [if_pos hle]
                  rcases hv : validateKeys E keys with e | u
                  · simp [hv]
                  · refine ⟨by simp [hv], fun _ c hc => ?_⟩
                    rcases mem_take_drop_cases 5 hc with h1 | h2
                    · rw [hmulti] at h1
                      exact (by decide : ∀ x ∈ "multi".toList, x ∈ INPUT_CHARSET) c h1
                    · refine extract_args_chars hx ?_ c h2
                      intro a ha c' hc'
                      rcases List.mem_cons.mp ha with rfl | ha
                      · exact parse_i32_chars hp c' hc'
                      · rcases validateKeys_ok_mem hv a ha with ⟨r, hr⟩
                        exact validate_key_expression_chars hr c' hc'
                · rw [if_neg hle]
                  exact ⟨by simp, by simp⟩
      · rw [if_neg hmulti]
        by_cases hpkh : t.take 3 = "pkh".toList
        · rw [if_pos hpkh]
          rcases hx : extract_args (t.drop 3) "pkh" with e | args
          · exact ⟨by simp, by simp⟩
          · match args with
            | [] => exact ⟨by simp, by simp⟩
            | a :: b :: rest => exact ⟨by simp, by simp⟩
            | [arg] =>
              rcases hk : validate_key_expression E arg with e | r
              · simp [hk]
              · refine ⟨by simp [hk], fun _ c hc => ?_⟩
                rcases mem_take_drop_cases 3 hc with h1 | h2
                · rw [hpkh] at h1
                  exact (by decide : ∀ x ∈ "pkh".toList, x ∈ INPUT_CHARSET) c h1
                · refine extract_args_chars hx ?_ c h2
                  intro a ha c' hc'
                  rw [List.mem_singleton] at ha
                  subst ha
                  exact validate_key_expression_chars hk c' hc'
        · rw [if_neg hpkh]
          by_cases hpk : t.take 2 = "pk".toList
          · rw [if_pos hpk]
            rcases hx : extract_args (t.drop 2) "pk" with e | args
            · exact ⟨by simp, by simp⟩
            · match args with
              | [] => exact ⟨by simp, by simp⟩
              | a :: b :: rest => exact ⟨by simp, by simp⟩
              | [arg] =>
                rcases hk : validate_key_expression E arg with e | r
                · simp [hk]
                · refine ⟨by simp [hk], fun _ c hc => ?_⟩
                  rcases mem_take_drop_cases 2 hc with h1 | h2
                  · rw [hpk] at h1
                    exact (by decide : ∀ x ∈ "pk".toList, x ∈ INPUT_CHARSET) c h1
                  · refine extract_args_chars hx ?_ c h2
                    intro a ha c' hc'
                    rw [List.mem_singleton] at ha
                    subst ha
                    exact validate_key_expression_chars hk c' hc'
          · rw [if_neg hpk]
            by_cases hsh : t.take 2 = "sh".toList
            · rw [if_pos hsh]
              rcases hx : extract_args (t.drop 2) "sh" with e | args
              · exact ⟨by simp, by simp⟩
              · match args with
                | [] => exact ⟨by simp, by simp⟩
                | a :: b :: rest => exact ⟨by simp, by simp⟩
                | [arg] =>
                  by_cases hpfx : ("pkh".toList.isPrefixOf arg ||
                      "pk".toList.isPrefixOf arg || "multi".toList.isPrefixOf arg) = true
                  · have hsub : ∀ c ∈ arg, c ∈ t := by
                      intro c hc
                      exact List.drop_subset 2 t
                        (extract_args_sub hx arg (List.mem_cons_self arg []) c hc)
                    have hlen_arg : arg.length + 4 ≤ t.length := by
                      have h1 := extract_args_len hx arg (List.mem_cons_self arg [])
                      have h2 : (t.drop 2).length = t.length - 2 := List.length_drop 2 t
                      omega
                    have hhash_arg : '#' ∉ trimify arg := fun hmem =>
                      hhash (hsub '#' (trimify_subset hmem))
                    have htne : (trimify arg).length < n := by
                      have := trimify_length_le arg
                      omega
                    have IHarg := IH (trimify arg).length htne (trimify arg)
                      (le_refl _) hhash_arg
                    have hdiv : divide_script_and_checksum arg = (arg, none) :=
                      divide_no_hash_eq (fun hmem => hhash (hsub '#' hmem))
                    have hse : script_expression E arg ScriptExpressionConfig.default =
                        match script_match E (trimify arg) with
                        | none => none
                        | some (.error e) => some (.error e)
                        | some (.ok _) => some (.ok arg) := by
                      have hd := script_expression_decomp E arg ScriptExpressionConfig.default
                      simp only [hdiv] at hd
                      rw [hd]
                      rcases script_match E (trimify arg) with _ | r
                      · rfl
                      · rcases r with e | u
                        · rfl
                        · exact script_operation_plain rfl rfl
                    rcases hm : script_match E (trimify arg) with _ | r
                    · exact absurd hm IHarg.1
                    · rcases r with e | u
                      · constructor
                        · simp only [hse, hm]
                          split <;> simp
                        · simp only [hse, hm]
                          split <;> simp
                      · cases u
                        refine ⟨by simp only [hse, hm]; split <;> simp,
                          fun _ c hc => ?_⟩
                        rcases mem_take_drop_cases 2 hc with h1 | h2
                        · rw [hsh] at h1
                          exact (by decide : ∀ x ∈ "sh".toList, x ∈ INPUT_CHARSET) c h1
                        · refine extract_args_chars hx ?_ c h2
                          intro a ha c' hc'
                          rw [List.mem_singleton] at ha
                          subst ha
                          rcases mem_trimify_or_space hc' with h3 | h3
                          · exact IHarg.2 hm c' h3
                          · subst h3
                            decide
                  · have hpfx2 : ¬((['p', 'k', 'h'] <+: arg ∨ ['p', 'k'] <+: arg) ∨
                        ['m', 'u', 'l', 't', 'i'] <+: arg) := by simpa using hpfx
                    simp [hpfx2]
            · rw [if_neg hsh]
              exact ⟨by simp, by simp⟩

/-- C10. For every input and configuration: whenever the keyword grammar
match of `script_expression` succeeds on the trimified script portion (the
part of the input before the first `#`), every character of the script
portion belongs to the checksum engine's `INPUT_CHARSET` and
`checksum_create` on the script portion succeeds, so the out-of-alphabet
panic inside `checksum_expand` is unreachable there (in particular in the
compute-checksum branch); and `script_expression` never reaches a panic
(the embedding's `none`) on any input and configuration. -/
theorem C10_grammar_charset_no_panic (E : ExtEngine) (input : List Char)
    (config : ScriptExpressionConfig) :
    (script_match E (trimify (divide_script_and_checksum input).1) = some (.ok ()) →
      (∀ c ∈ (divide_script_and_checksum input).1, c ∈ INPUT_CHARSET) ∧
      ∃ cs, checksum_create (divide_script_and_checksum input).1 = some cs) ∧
    script_expression E input config ≠ none := by
  have hhash : '#' ∉ (divide_script_and_checksum input).1 := divide_fst_no_hash input
  have hthash : '#' ∉ trimify (divide_script_and_checksum input).1 :=
    fun hmem => hhash (trimify_subset hmem)
  have S := script_match_safe E (trimify (divide_script_and_checksum input).1).length
    (trimify (divide_script_and_checksum input).1) (le_refl _) hthash
  have hchars : script_match E (trimify (divide_script_and_checksum input).1) =
      some (.ok ()) → ∀ c ∈ (divide_script_and_checksum input).1, c ∈ INPUT_CHARSET := by
    intro hok c hc
    rcases mem_trimify_or_space hc with h1 | h1
    · exact S.2 hok c h1
    · subst h1
      decide
  constructor
  · intro hok
    exact ⟨hchars hok, checksum_create_of_mem (hchars hok)⟩
  · rw [script_expression_decomp]
    rcases hm : script_match E (trimify (divide_script_and_checksum input).1) with _ | r
    · exact absurd hm S.1
    · rcases r with e | u
      · simp
      · cases u
        exact script_operation_ne_none (fun _ => checksum_create_of_mem (hchars hm))

/-- Witness for C10: `raw(deadbeef)` passes the grammar match; the theorem
gives its characters in `INPUT_CHARSET`, a successful `checksum_create`, and
a panic-free run under the compute-checksum configuration. -/
theorem C10_grammar_charset_no_panic_witness :
    script_match failEngine
      (trimify (divide_script_and_checksum "raw(deadbeef)".toList).1) = some (.ok ()) ∧
    (∀ c ∈ (divide_script_and_checksum "raw(deadbeef)".toList).1, c ∈ INPUT_CHARSET) ∧
    (∃ cs, checksum_create (divide_script_and_checksum "raw(deadbeef)".toList).1 =
      some cs) ∧
    script_expression failEngine "raw(deadbeef)".toList ⟨true, false⟩ ≠ none := by
  have hg : script_match failEngine
      (trimify (divide_script_and_checksum "raw(deadbeef)".toList).1) = some (.ok ()) := by
    decide
  have h := C10_grammar_charset_no_panic failEngine "raw(deadbeef)".toList ⟨true, false⟩
  exact ⟨hg, (h.1 hg).1, (h.1 hg).2, h.2⟩

end BIP380
